import Mathlib

/-!
# Telemetruum Agent: collection core

Shallow embedding of `src/modules/*.go`.

* A Go `string` is a byte sequence (`GoString`).
* A pointer receiver that is mutated in place becomes explicit state passing.
* A call that does not return to its caller (a run-time panic, or `log.Fatal`, which exits the
  process) is the `none` of `Option`.
* Logging has no effect on the state and is left out.
* The outcome of every call into the outside world (files, the Kubernetes API, the metrics
  backend, the JSON decoder) is an explicit argument.
-/

namespace Telemetruum

/-! ## Go values -/

/-- Go `string`: an immutable sequence of bytes. -/
abbrev GoString := List UInt8

/-- The bytes (UTF-8) of a string literal of the source. -/
def str (s : String) : GoString := s.data.flatMap String.utf8EncodeChar

/-- Go `a < b` on strings: byte-wise lexicographic order. -/
def bytesLess : GoString → GoString → Bool
  | [], [] => false
  | [], _ :: _ => true
  | _ :: _, [] => false
  | a :: as, b :: bs => if a < b then true else if b < a then false else bytesLess as bs

/-- Go `strings.HasPrefix(s, prefix)`. -/
def HasPrefix (s pre : GoString) : Bool := pre.isPrefixOf s

/-- Go `a[n:]` on a string: a run-time panic (`none`) when `n` exceeds `len(a)`. -/
def sliceFrom (a : GoString) (n : Nat) : Option GoString :=
  if n ≤ a.length then some (a.drop n) else none

/-- Go `time.Duration`: a count of nanoseconds. -/
abbrev Duration := Int

/-- Go `time.Second`. -/
def Second : Duration := 1000000000

/-- Go `context.Context`, as far as the agent looks at it: whether it has been cancelled. -/
structure Context where
  cancelled : Bool
  deriving DecidableEq, Repr

/-! ## Metrics backend (go.opentelemetry.io/otel) -/

/-- Library type `attribute.KeyValue` with a string value. -/
structure KeyValue where
  Key : GoString
  Value : GoString
  deriving DecidableEq, Repr

/-- Source expression `attribute.Key(k).String(v)`. -/
def attr (k v : GoString) : KeyValue := ⟨k, v⟩

/-- Library type `attribute.Set`: the attributes sorted by key, one entry per key. -/
abbrev AttributeSet := List KeyValue

/-- Insertion of one attribute into a set, replacing the entry that has the same key. -/
def upsert (kv : KeyValue) : AttributeSet → AttributeSet
  | [] => [kv]
  | x :: xs =>
    if bytesLess kv.Key x.Key then kv :: x :: xs
    else if kv.Key = x.Key then kv :: xs
    else x :: upsert kv xs

/-- Library function `attribute.NewSet(kvs...)`: sorts by key and, for a key given more than once,
keeps the value given last. -/
def NewSet (kvs : List KeyValue) : AttributeSet :=
  kvs.foldl (fun s kv => upsert kv s) []

/-- Library function `metric.WithAttributes(kvs...)`, shorthand for
`WithAttributeSet(attribute.NewSet(copy of kvs...))`. -/
def WithAttributes (kvs : List KeyValue) : AttributeSet := NewSet kvs

/-- Library function `metric.WithAttributeSet(s)`. -/
def WithAttributeSet (s : AttributeSet) : AttributeSet := s

/-- The value held by a set for a key (library method `Set.Value`). -/
def AttributeSet.value (s : AttributeSet) (k : GoString) : Option GoString :=
  (s.find? (fun kv => kv.Key = k)).map KeyValue.Value

/-- Library type `metric.Int64ObservableGauge`: the handle of a registered gauge. -/
structure Int64ObservableGauge where
  name : GoString
  description : GoString
  deriving DecidableEq, Repr

/-- One call `o.ObserveInt64(instrument, value, opt)`; `instrument` is `none` for a nil handle. -/
structure Observation where
  instrument : Option Int64ObservableGauge
  value : Int
  attributes : AttributeSet
  deriving DecidableEq, Repr

/-- Library type `metric.Observer`, as the sequence of observations recorded so far. -/
abbrev Observer := List Observation

/-- Library method `Observer.ObserveInt64`. -/
def ObserveInt64 (o : Observer) (g : Option Int64ObservableGauge) (v : Int)
    (opt : AttributeSet) : Observer :=
  o ++ [⟨g, v, opt⟩]

/-- Library type `metric.Meter`, by the outcome of the two calls the agent makes. -/
structure Meter where
  /-- Outcome of `meter.Int64ObservableGauge(name, WithDescription(description))`;
  `none` when the backend returns an error. -/
  newGauge : GoString → GoString → Option Int64ObservableGauge
  /-- Whether `meter.RegisterCallback(f, instruments...)` returns an error. -/
  registerFails : List (Option Int64ObservableGauge) → Bool

/-- A backend that creates every gauge asked for and accepts every registration. -/
def acceptingMeter : Meter where
  newGauge := fun name description => some ⟨name, description⟩
  registerFails := fun _ => false

/-! ## common.go: the collector runner -/

/-- Interface `AsyncCollector`. `GetMetrics` may mutate the receiver, and is `none` when it ends
in `log.Fatal`. -/
class AsyncCollector (T : Type) where
  CreateObservations : T → Observer → Observer
  GetMetrics : T → Meter → Option (T × List (Option Int64ObservableGauge))

/-- A provider function `func(context.Context, T)`: the collector it leaves behind, or `none`
when the call does not return. -/
abbrev ProviderFn (T : Type) := Context → T → Option T

/-- Struct `AsyncCollectorRunner[T]`. -/
structure AsyncCollectorRunner (T : Type) where
  Collector : T
  Interval : Duration
  Providers : List (ProviderFn T)

namespace AsyncCollectorRunner

variable {T : Type}

/-- Method `AppendAsyncDataProvider`. -/
def AppendAsyncDataProvider (c : AsyncCollectorRunner T) (dp : ProviderFn T) :
    AsyncCollectorRunner T :=
  { c with Providers := c.Providers ++ [dp] }

/-- Method `Init`: the runner after the call, `none` when the call ends in `log.Fatal`. -/
def Init [AsyncCollector T] (c : AsyncCollectorRunner T) (meter : Meter) :
    Option (AsyncCollectorRunner T) :=
  let c1 : AsyncCollectorRunner T :=
    if c.Interval = 0 then { c with Interval := 60 * Second } else c
  match AsyncCollector.GetMetrics c1.Collector meter with
  | none => none
  | some (col, instruments) =>
    if meter.registerFails instruments then none else some { c1 with Collector := col }

/-- The callback that `Init` registers: what a scrape observes. -/
def callback [AsyncCollector T] (c : AsyncCollectorRunner T) (o : Observer) : Observer :=
  AsyncCollector.CreateObservations c.Collector o

/-- What the poll loop does, in order. -/
inductive Event where
  /-- The call `exec(ctx, c.Collector)` of the entry at this index of `c.Providers` returned. -/
  | exec (index : Nat)
  /-- The call `time.Sleep(d)`. -/
  | sleep (d : Duration)
  deriving DecidableEq, Repr

/-- The inner loop `for _, exec := range c.Providers { exec(ctx, c.Collector) }`, from the entry
at index `i` on. -/
def rangeProviders (ctx : Context) : List (ProviderFn T) → Nat → T → List Event →
    Option (T × List Event)
  | [], _, col, log => some (col, log)
  | exec :: rest, i, col, log =>
    match exec ctx col with
    | none => none
    | some col1 => rangeProviders ctx rest (i + 1) col1 (log ++ [Event.exec i])

/-- One iteration of the outer `for` of `Start`: every provider, then `time.Sleep(c.Interval)`. -/
def tick (ctx : Context) (c : AsyncCollectorRunner T) (log : List Event) :
    Option (AsyncCollectorRunner T × List Event) :=
  match rangeProviders ctx c.Providers 0 c.Collector log with
  | none => none
  | some (col, log1) => some ({ c with Collector := col }, log1 ++ [Event.sleep c.Interval])

/-- The first `n` iterations of the goroutine launched by `Start`. -/
def Start (ctx : Context) : Nat → AsyncCollectorRunner T → List Event →
    Option (AsyncCollectorRunner T × List Event)
  | 0, c, log => some (c, log)
  | n + 1, c, log =>
    match tick ctx c log with
    | none => none
    | some (c1, log1) => Start ctx n c1 log1

/-- The delays of the calls `time.Sleep` in a log of the poll loop, in order. -/
def sleeps : List Event → List Duration
  | [] => []
  | Event.sleep d :: rest => d :: sleeps rest
  | Event.exec _ :: rest => sleeps rest

/-- A provider function that always returns, given by what it does to the collector. -/
def returning (f : T → T) : ProviderFn T := fun _ col => some (f col)

/-- Left-to-right composition of provider functions: each is applied to the collector the
previous one left; nothing is left when one of them does not return. -/
def composition (ctx : Context) : List (ProviderFn T) → T → Option T
  | [], col => some col
  | p :: ps, col => (p ctx col).bind (composition ctx ps)

end AsyncCollectorRunner

/-! ## metric_host_info.go -/

/-- Struct `HostInfoCollector`. -/
structure HostInfoCollector where
  Os : GoString
  Ip : GoString
  Arch : GoString
  Latitutde : GoString
  Longitude : GoString
  Hostname : GoString
  Id : GoString
  gauge : Option Int64ObservableGauge
  deriving DecidableEq, Repr

namespace HostInfoCollector

/-- Method `GetMetrics`. -/
def GetMetrics (c : HostInfoCollector) (meter : Meter) :
    Option (HostInfoCollector × List (Option Int64ObservableGauge)) :=
  if c.gauge = none then
    match meter.newGauge (str "tlum_host_info") (str "info about the host") with
    | none => none
    | some gauge => some ({ c with gauge := some gauge }, [some gauge])
  else some (c, [c.gauge])

/-- Method `CreateObservations`. -/
def CreateObservations (c : HostInfoCollector) (o : Observer) : Observer :=
  let opt := WithAttributes [
    attr (str "os") c.Os,
    attr (str "ip") c.Ip,
    attr (str "arch") c.Arch,
    attr (str "latitude") c.Latitutde,
    attr (str "longitude") c.Longitude,
    attr (str "hostname") c.Hostname,
    attr (str "id") c.Id]
  ObserveInt64 o c.gauge 1 opt

instance : AsyncCollector HostInfoCollector := ⟨CreateObservations, GetMetrics⟩

end HostInfoCollector

/-! ## metric_orch_info.go -/

/-- Struct `OrchInfoCollector`; the field `Type` of the source is `Type_` here. -/
structure OrchInfoCollector where
  Type_ : GoString
  AgentId : GoString
  AgentName : GoString
  ClusterId : GoString
  gauge : Option Int64ObservableGauge
  gaugeOld : Option Int64ObservableGauge
  deriving DecidableEq, Repr

namespace OrchInfoCollector

/-- Method `GetMetrics`. -/
def GetMetrics (c : OrchInfoCollector) (meter : Meter) :
    Option (OrchInfoCollector × List (Option Int64ObservableGauge)) :=
  if c.gauge = none then
    match meter.newGauge (str "tlum_orch_info") (str "info about the orchestrator") with
    | none => none
    | some gauge =>
      match meter.newGauge (str "tlum_ocm_agent_info")
          (str "info about the orchestrator. Legacy, do not use") with
      | none => none
      | some gaugeOld =>
        some ({ c with gauge := some gauge, gaugeOld := some gaugeOld },
          [some gauge, some gaugeOld])
  else some (c, [c.gauge, c.gaugeOld])

/-- Method `CreateObservations`. -/
def CreateObservations (c : OrchInfoCollector) (o : Observer) : Observer :=
  if c.Type_ ≠ str "" then
    let opt := WithAttributes [
      attr (str "type") c.Type_,
      attr (str "agent-id") c.AgentId,
      attr (str "agent-name") c.AgentName,
      attr (str "cluster_id") c.ClusterId]
    let o1 := ObserveInt64 o c.gauge 1 opt
    if c.Type_ = str "ocm" then
      let optOld := WithAttributes [
        attr (str "id") c.AgentId,
        attr (str "name") c.AgentName]
      ObserveInt64 o1 c.gaugeOld 1 optOld
    else o1
  else o

instance : AsyncCollector OrchInfoCollector := ⟨CreateObservations, GetMetrics⟩

end OrchInfoCollector

/-! ## metric_workload_info.go -/

/-- Go `map[string]string`: its entries, keys pairwise different, in the order in which a
`range` over the map yields them (any order is possible). -/
abbrev GoMap := List (GoString × GoString)

/-- Struct `WorkloadInfo`; the field `Type` of the source is `Type_` here. -/
structure WorkloadInfo where
  Name : GoString
  Type_ : GoString
  Annotations : GoMap
  deriving DecidableEq, Repr

/-- Struct `WorkloadInfoCollector`. -/
structure WorkloadInfoCollector where
  RunningWorkloads : List WorkloadInfo
  HostId : GoString
  ClusterId : GoString
  gauge : Option Int64ObservableGauge
  deriving DecidableEq, Repr

namespace WorkloadInfoCollector

/-- Method `GetMetrics`. -/
def GetMetrics (c : WorkloadInfoCollector) (meter : Meter) :
    Option (WorkloadInfoCollector × List (Option Int64ObservableGauge)) :=
  if c.gauge = none then
    match meter.newGauge (str "tlum_workload_info")
        (str "info about the workloads running in the node") with
    | none => none
    | some gauge => some ({ c with gauge := some gauge }, [some gauge])
  else some (c, [c.gauge])

/-- The body of the loop of `CreateObservations`, for the workload `w`. -/
def observeWorkload (c : WorkloadInfoCollector) (o : Observer) (w : WorkloadInfo) : Observer :=
  let annotationAttributes : List KeyValue := []
  let annotationAttributes := annotationAttributes ++ [attr (str "name") w.Name]
  let annotationAttributes := annotationAttributes ++ [attr (str "cluster_id") c.ClusterId]
  let annotationAttributes := annotationAttributes ++ [attr (str "host_id") c.HostId]
  let annotationAttributes :=
    w.Annotations.foldl (fun acc kv => acc ++ [attr kv.1 kv.2]) annotationAttributes
  let opt := WithAttributeSet (NewSet annotationAttributes)
  ObserveInt64 o c.gauge 1 opt

/-- Method `CreateObservations`. -/
def CreateObservations (c : WorkloadInfoCollector) (o : Observer) : Observer :=
  c.RunningWorkloads.foldl (observeWorkload c) o

instance : AsyncCollector WorkloadInfoCollector := ⟨CreateObservations, GetMetrics⟩

end WorkloadInfoCollector

/-! ## metric_node_mounted.go -/

/-- Struct `Peripheral`. -/
structure Peripheral where
  Device : GoString
  ResourcePath : GoString
  Available : Bool
  deriving DecidableEq, Repr

/-- Struct `NodeMountedCollector`. -/
structure NodeMountedCollector where
  AttachedPeripherals : List Peripheral
  gauge : Option Int64ObservableGauge
  deriving DecidableEq, Repr

namespace NodeMountedCollector

/-- Method `GetMetrics`. -/
def GetMetrics (c : NodeMountedCollector) (meter : Meter) :
    Option (NodeMountedCollector × List (Option Int64ObservableGauge)) :=
  if c.gauge = none then
    match meter.newGauge (str "node_mounted") (str "info about the attached peripherals") with
    | none => none
    | some gauge => some ({ c with gauge := some gauge }, [some gauge])
  else some (c, [c.gauge])

/-- The body of the loop of `CreateObservations`, for the peripheral `p`. -/
def observePeripheral (c : NodeMountedCollector) (o : Observer) (p : Peripheral) : Observer :=
  let opt := WithAttributes [
    attr (str "device") p.Device,
    attr (str "resource_path") p.ResourcePath]
  let val : Int := 1
  let val := if !p.Available then 0 else val
  ObserveInt64 o c.gauge val opt

/-- Method `CreateObservations`. -/
def CreateObservations (c : NodeMountedCollector) (o : Observer) : Observer :=
  c.AttachedPeripherals.foldl (observePeripheral c) o

instance : AsyncCollector NodeMountedCollector := ⟨CreateObservations, GetMetrics⟩

end NodeMountedCollector

/-! ## provider_k8s.go -/

/-- Kubernetes API type `metav1.ObjectMeta`: the fields the agent reads. -/
structure ObjectMeta where
  Name : GoString
  Namespace : GoString
  Annotations : GoMap
  deriving DecidableEq, Repr

/-- Kubernetes API type `v1.Container`: the field the agent reads. -/
structure Container where
  Args : List GoString
  deriving DecidableEq, Repr

/-- Kubernetes API type `v1.PodSpec`: the fields the agent reads. -/
structure PodSpec where
  NodeName : GoString
  Containers : List Container
  deriving DecidableEq, Repr

/-- Kubernetes API type `v1.Pod`. -/
structure Pod where
  ObjectMeta : ObjectMeta
  Spec : PodSpec
  deriving DecidableEq, Repr

/-- Struct `KubernetesProvider`. The client is represented by the answers it gives, which are
arguments of the operations. -/
structure KubernetesProvider where
  iAmTheLeader : Bool
  Id : GoString
  deriving DecidableEq, Repr

namespace KubernetesProvider

/-- The loop `for _, a := range p.Spec.Containers[0].Args` of `ProvideOCMOrchInfo`, with the
values of `ocm_agent_name` and `ocm_agent_id` so far; `none` when a slice expression panics. -/
def rangeArgs : List GoString → GoString → GoString → Option (GoString × GoString)
  | [], ocm_agent_name, ocm_agent_id => some (ocm_agent_name, ocm_agent_id)
  | a :: rest, ocm_agent_name, ocm_agent_id =>
    match (if HasPrefix a (str "--spoke-cluster-name") then sliceFrom a 21
        else some ocm_agent_name) with
    | none => none
    | some name1 =>
      match (if HasPrefix a (str "--agent-id") then sliceFrom a 11 else some ocm_agent_id) with
      | none => none
      | some id1 => rangeArgs rest name1 id1

/-- The body of the loop `for _, p := range pods.Items` of `ProvideOCMOrchInfo`; `none` when
`p.Spec.Containers[0]` is out of range or a slice expression panics. -/
def ocmPod (kp : KubernetesProvider) (c : OrchInfoCollector) (p : Pod) :
    Option OrchInfoCollector :=
  if HasPrefix p.ObjectMeta.Name (str "klusterlet-work-agent") then
    match p.Spec.Containers with
    | [] => none
    | first :: _ =>
      match rangeArgs first.Args (str "") (str "") with
      | none => none
      | some (ocm_agent_name, ocm_agent_id) =>
        if ocm_agent_name ≠ str "" ∧ ocm_agent_id ≠ str "" then
          some { c with
            Type_ := str "ocm"
            AgentName := ocm_agent_name
            AgentId := ocm_agent_id
            ClusterId := kp.Id }
        else some c
  else some c

/-- The loop `for _, p := range pods.Items` of `ProvideOCMOrchInfo`. -/
def rangePods (kp : KubernetesProvider) : List Pod → OrchInfoCollector → Option OrchInfoCollector
  | [], c => some c
  | p :: rest, c =>
    match ocmPod kp c p with
    | none => none
    | some c1 => rangePods kp rest c1

/-- Method `ProvideOCMOrchInfo`; `items` is `pods.Items` of the answer of the pod list call. -/
def ProvideOCMOrchInfo (kp : KubernetesProvider) (items : List Pod) (c : OrchInfoCollector) :
    Option OrchInfoCollector :=
  if !kp.iAmTheLeader then some c
  else rangePods kp items c

/-- Callback `OnStartedLeading` of `leaderElectionControlLoop`. -/
def OnStartedLeading (kp : KubernetesProvider) : KubernetesProvider := kp

/-- Callback `OnStoppedLeading` of `leaderElectionControlLoop`. -/
def OnStoppedLeading (kp : KubernetesProvider) : KubernetesProvider :=
  { kp with iAmTheLeader := false }

/-- Callback `OnNewLeader` of `leaderElectionControlLoop`; `podName` is the value of the
environment variable `POD_NAME`. -/
def OnNewLeader (podName : GoString) (kp : KubernetesProvider) (identity : GoString) :
    KubernetesProvider :=
  if identity = podName then { kp with iAmTheLeader := true } else kp

/-- A notification of the leader election of client-go. -/
inductive Notification where
  | startedLeading
  | stoppedLeading
  | newLeader (identity : GoString)
  deriving DecidableEq, Repr

/-- The leadership state machine: the provider after one notification. -/
def notify (podName : GoString) (kp : KubernetesProvider) : Notification → KubernetesProvider
  | .startedLeading => OnStartedLeading kp
  | .stoppedLeading => OnStoppedLeading kp
  | .newLeader identity => OnNewLeader podName kp identity

end KubernetesProvider

/-! ## common.go: the Nuvla context file -/

/-- Struct `NuvlaContext`. -/
structure NuvlaContext where
  Id : GoString
  State : GoString
  deriving DecidableEq, Repr

/-- Outcome of `json.Unmarshal(data, &nuvlaObj)` for `nuvlaObj := &NuvlaContext{}`: the error
returned (if any) and what `nuvlaObj` points to afterwards (`none` for a nil pointer, which the
document `null` leaves). -/
structure UnmarshalOutcome where
  err : Option GoString
  nuvlaObj : Option NuvlaContext
  deriving DecidableEq, Repr

/-- Function `CommonProvideNuvlaOrchestratorInfo`. `ReadFile` is `os.ReadFile` on the file system
of the moment (the error or the content), `Unmarshal` the JSON decoder; `none` when
`nuvlaObj.Id` dereferences a nil pointer. -/
def CommonProvideNuvlaOrchestratorInfo (ReadFile : GoString → Except GoString GoString)
    (Unmarshal : GoString → UnmarshalOutcome) (nuvlaContextFile : GoString)
    (oic : OrchInfoCollector) : Option OrchInfoCollector :=
  match ReadFile nuvlaContextFile with
  | .error _ => some oic
  | .ok nuvlaFile =>
    let oic1 := { oic with Type_ := str "nuvla" }
    let out := Unmarshal nuvlaFile
    match out.err with
    | some _ => some oic1
    | none =>
      match out.nuvlaObj with
      | none => none
      | some nuvlaObj =>
        some { oic1 with
          Type_ := str "nuvla"
          AgentId := nuvlaObj.Id
          AgentName := nuvlaObj.Id
          ClusterId := nuvlaObj.Id }

/-! ## Go standard library: strings, unicode/utf8, regexp -/

/-- Library function `strings.Trim(s, cutset)` for a cutset of one byte. -/
def Trim (s : GoString) (cut : UInt8) : GoString :=
  ((s.dropWhile (fun b => b = cut)).reverse.dropWhile (fun b => b = cut)).reverse

/-- Library function `strings.Split(s, sep)` for a separator of one byte. -/
def Split : GoString → UInt8 → List GoString
  | [], _ => [[]]
  | b :: rest, sep =>
    if b = sep then [] :: Split rest sep
    else
      match Split rest sep with
      | [] => [[b]]
      | x :: xs => (b :: x) :: xs

/-- Library function `strings.ReplaceAll(s, old, new)` for `old` and `new` of one byte each. -/
def ReplaceAll (s : GoString) (old new : UInt8) : GoString :=
  s.map (fun b => if b = old then new else b)

/-- Library function `strings.ToLower` as it acts on a string of ASCII bytes. -/
def asciiToLower (s : GoString) : GoString :=
  s.map (fun b => if 65 ≤ b ∧ b ≤ 90 then b + 32 else b)

/-- A continuation byte of UTF-8. -/
def isCont (b : UInt8) : Bool := decide (0x80 ≤ b) && decide (b ≤ 0xBF)

/-- The least second byte that `unicode/utf8` accepts after the first byte `b0`. -/
def acceptLo (b0 : UInt8) : UInt8 :=
  if b0 = 0xE0 then 0xA0 else if b0 = 0xF0 then 0x90 else 0x80

/-- The greatest second byte that `unicode/utf8` accepts after the first byte `b0`. -/
def acceptHi (b0 : UInt8) : UInt8 :=
  if b0 = 0xED then 0x9F else if b0 = 0xF4 then 0x8F else 0xBF

/-- Library function `utf8.DecodeRuneInString`, the width it returns: the number of bytes of the
first rune, 1 for a byte that does not start a valid encoding, 0 for the empty string. -/
def runeWidth : GoString → Nat
  | [] => 0
  | b0 :: rest =>
    if b0 < 0x80 then 1
    else if 0xC2 ≤ b0 ∧ b0 ≤ 0xDF then
      match rest with
      | b1 :: _ => if isCont b1 then 2 else 1
      | _ => 1
    else if 0xE0 ≤ b0 ∧ b0 ≤ 0xEF then
      match rest with
      | b1 :: b2 :: _ => if acceptLo b0 ≤ b1 ∧ b1 ≤ acceptHi b0 ∧ isCont b2 then 3 else 1
      | _ => 1
    else if 0xF0 ≤ b0 ∧ b0 ≤ 0xF4 then
      match rest with
      | b1 :: b2 :: b3 :: _ =>
        if acceptLo b0 ≤ b1 ∧ b1 ≤ acceptHi b0 ∧ isCont b2 ∧ isCont b3 then 4 else 1
      | _ => 1
    else 1

/-- The runes of a string as the regexp engine steps through them, each by its bytes; at most
`fuel` of them. -/
def runesFuel : Nat → GoString → List GoString
  | 0, _ => []
  | fuel + 1, s =>
    if s = [] then []
    else s.take (runeWidth s) :: runesFuel fuel (s.drop (runeWidth s))

/-- The runes of a string, each by its bytes. -/
def runes (s : GoString) : List GoString := runesFuel s.length s

/-- A piece of the regular expression `m1`. -/
inductive Item where
  /-- An ASCII character of the expression. -/
  | literal (b : UInt8)
  /-- The expression `.`: any rune but the line feed. -/
  | anyCharNotNL
  /-- The expression `(.+)`: a capturing group of one or more runes other than the line feed,
  as many as possible. -/
  | capturePlus
  deriving DecidableEq, Repr

/-- One more rune at the front of the first capture. -/
def extendFirst (r : GoString) : List (List GoString) → List (List GoString)
  | [] => [[r]]
  | g :: caps => (r :: g) :: caps

/-- A match of a sequence of items at the start of the input, the way a backtracking engine
finds it (the semantics of Go `regexp`): the runes captured by the groups, in order, and the
input left. A group first tries to take one more rune and gives it back only when what follows
does not match. -/
def matchItems : List Item → List GoString → Option (List (List GoString) × List GoString)
  | [], rs => some ([], rs)
  | _ :: _, [] => none
  | Item.literal b :: items, r :: rs => if r = [b] then matchItems items rs else none
  | Item.anyCharNotNL :: items, r :: rs => if r = [10] then none else matchItems items rs
  | Item.capturePlus :: items, r :: rs =>
    if r = [10] then none
    else
      match matchItems (Item.capturePlus :: items) rs with
      | some m => some (extendFirst r m.1, m.2)
      | none =>
        match matchItems items rs with
        | some m => some ([r] :: m.1, m.2)
        | none => none

/-- The leftmost match in the input: the runes before it, the captures, the input left. -/
def search (items : List Item) : List GoString →
    Option (List GoString × List (List GoString) × List GoString)
  | [] => (matchItems items []).map (fun m => ([], m.1, m.2))
  | r :: rs =>
    match matchItems items (r :: rs) with
    | some m => some ([], m.1, m.2)
    | none => (search items rs).map (fun m => (r :: m.1, m.2.1, m.2.2))

/-- Source variable `m1 = regexp.MustCompile("(.+).icos.eu/(.+)")`. -/
def m1 : List Item :=
  [Item.capturePlus, Item.anyCharNotNL,
    Item.literal 105, Item.literal 99, Item.literal 111, Item.literal 115,
    Item.anyCharNotNL,
    Item.literal 101, Item.literal 117, Item.literal 47,
    Item.capturePlus]

/-- Method `m1.MatchString(k)`. -/
def MatchString (k : GoString) : Bool := (search m1 (runes k)).isSome

/-- The template "icos.$1.$2" expanded with the captures of a match. -/
def expand : List (List GoString) → GoString
  | g1 :: g2 :: _ => str "icos." ++ g1.flatten ++ str "." ++ g2.flatten
  | [g1] => str "icos." ++ g1.flatten ++ str "."
  | [] => str "icos.."

/-- The loop of `ReplaceAllString`: every match, from left to right, is replaced by the expanded
template, and the runes between the matches are copied; at most `fuel` matches. -/
def replaceLoop : Nat → List GoString → GoString
  | 0, rs => rs.flatten
  | fuel + 1, rs =>
    match search m1 rs with
    | none => rs.flatten
    | some (before, caps, rest) => before.flatten ++ expand caps ++ replaceLoop fuel rest

/-- Method `m1.ReplaceAllString(k, "icos.$1.$2")`. -/
def ReplaceAllString (k : GoString) : GoString := replaceLoop (runes k).length (runes k)

/-- Go `m[k] = v` on a `map[string]string`. -/
def mapSet (m : GoMap) (k v : GoString) : GoMap :=
  if k ∈ m.map Prod.fst then m.map (fun e => if e.1 = k then (k, v) else e)
  else m ++ [(k, v)]

/-- The loop that `KubernetesProvider.ProvideWorkloadInfo` runs over the annotations of a pod
and `DockerProvider.ProvideWorkloadInfo` over the labels of a container, filling
`wi.Annotations`. -/
def rangeLabels (labels : GoMap) (annotations : GoMap) : GoMap :=
  labels.foldl (fun acc kv =>
    if MatchString kv.1 then
      let newK := ReplaceAllString kv.1
      mapSet acc newK kv.2
    else acc) annotations

/-! ## provider_k8s.go: workloads and the Nuvla context -/

namespace KubernetesProvider

/-- Method `ProvideWorkloadInfo`; `items` is `pods.Items` of the answer of the pod list call. -/
def ProvideWorkloadInfo (kp : KubernetesProvider) (items : List Pod)
    (c : WorkloadInfoCollector) : WorkloadInfoCollector :=
  let res := items.foldl (fun res p =>
    res ++ [{ Name := p.ObjectMeta.Name, Type_ := str "",
              Annotations := rangeLabels p.ObjectMeta.Annotations [] }]) []
  { c with RunningWorkloads := res, ClusterId := kp.Id }

/-- Method `ProvideNuvlaOrchestratorInfo`. `nodeName` is the environment variable `NODE_NAME`,
`items` the pods that the label selector returns, `nuvlaContextFile` the path that
`filepath.Join` builds from the namespace of the pod, `notExist` whether `os.Stat` reports that
the file does not exist. -/
def ProvideNuvlaOrchestratorInfo (nodeName : GoString) (items : List Pod)
    (nuvlaContextFile : GoString → GoString) (notExist : GoString → Bool)
    (ReadFile : GoString → Except GoString GoString) (Unmarshal : GoString → UnmarshalOutcome)
    (oic : OrchInfoCollector) : Option OrchInfoCollector :=
  match items with
  | [] => some oic
  | [nuvlaEdgePod] =>
    if nodeName ≠ nuvlaEdgePod.Spec.NodeName then some oic
    else if !notExist (nuvlaContextFile nuvlaEdgePod.ObjectMeta.Namespace) then
      CommonProvideNuvlaOrchestratorInfo ReadFile Unmarshal
        (nuvlaContextFile nuvlaEdgePod.ObjectMeta.Namespace) oic
    else some oic
  | _ :: _ :: _ => some oic

end KubernetesProvider

/-! ## provider_docker.go -/

/-- Docker API type `types.Container`: the fields the agent reads. -/
structure ContainerSummary where
  Names : List GoString
  Labels : GoMap
  deriving DecidableEq, Repr

/-- Struct `DockerProvider`. The client is represented by the answers it gives. -/
structure DockerProvider where
  Id : GoString
  deriving DecidableEq, Repr

/-- Struct `NuvlaPeripheralFileStruct`. -/
structure NuvlaPeripheralFileStruct where
  Identifier : GoString
  Available : Bool
  Interface : GoString
  DevicePath : GoString
  Name : GoString
  deriving DecidableEq, Repr

/-- Outcome of `json.Unmarshal(nuvlaFile, &nuvlaPeripherals)`: the error returned (if any) and
the entries of the map `nuvlaPeripherals`, in the order in which the `range` yields them. -/
structure PeripheralsOutcome where
  err : Option GoString
  nuvlaPeripherals : List (GoString × NuvlaPeripheralFileStruct)
  deriving DecidableEq, Repr

namespace DockerProvider

/-- The loop `for _, ctr := range containers` of `ProvideWorkloadInfo`; `none` when
`ctr.Names[0]` is out of range. -/
def rangeContainers : List ContainerSummary → List WorkloadInfo → Option (List WorkloadInfo)
  | [], res => some res
  | ctr :: rest, res =>
    match ctr.Names with
    | [] => none
    | name :: _ =>
      rangeContainers rest
        (res ++ [{ Name := name, Type_ := str "", Annotations := rangeLabels ctr.Labels [] }])

/-- Method `ProvideWorkloadInfo`; `ContainerList` is the outcome of
`kd.DockerClient.ContainerList`. An error ends in `panic(err)`. -/
def ProvideWorkloadInfo (kd : DockerProvider)
    (ContainerList : Except GoString (List ContainerSummary)) (c : WorkloadInfoCollector) :
    Option WorkloadInfoCollector :=
  match ContainerList with
  | .error _ => none
  | .ok containers =>
    match rangeContainers containers [] with
    | none => none
    | some res => some { c with RunningWorkloads := res, ClusterId := kd.Id }

/-- Method `ProvideNuvlaOrchestratorInfo`; `nuvlaContextFile` is the path that `filepath.Join`
builds. -/
def ProvideNuvlaOrchestratorInfo (nuvlaContextFile : GoString)
    (ReadFile : GoString → Except GoString GoString) (Unmarshal : GoString → UnmarshalOutcome)
    (oic : OrchInfoCollector) : Option OrchInfoCollector :=
  CommonProvideNuvlaOrchestratorInfo ReadFile Unmarshal nuvlaContextFile oic

/-- The loop `for _, v := range nuvlaPeripherals` of `ProvideNuvlaAttachedPeripherals`;
`ToLower` is the library function `strings.ToLower`. -/
def rangePeripherals (ToLower : GoString → GoString) :
    List (GoString × NuvlaPeripheralFileStruct) → List Peripheral → List Peripheral
  | [], res => res
  | (_, v) :: rest, res =>
    if v.Interface ≠ str "USB" then rangePeripherals ToLower rest res
    else
      let device := ToLower (ReplaceAll v.Name 32 45) ++ str "_" ++
        ToLower (ReplaceAll v.Identifier 58 95)
      let p : Peripheral :=
        { Device := device, Available := v.Available, ResourcePath := v.DevicePath }
      rangePeripherals ToLower rest (res ++ [p])

/-- Method `ProvideNuvlaAttachedPeripherals`; `peripheral_files` is the path that
`filepath.Join` builds. -/
def ProvideNuvlaAttachedPeripherals (ToLower : GoString → GoString)
    (ReadFile : GoString → Except GoString GoString) (Unmarshal : GoString → PeripheralsOutcome)
    (peripheral_files : GoString) (oic : NodeMountedCollector) : NodeMountedCollector :=
  match ReadFile peripheral_files with
  | .error _ => oic
  | .ok nuvlaFile =>
    let out := Unmarshal nuvlaFile
    match out.err with
    | some _ => oic
    | none => { oic with AttachedPeripherals := rangePeripherals ToLower out.nuvlaPeripherals [] }

end DockerProvider

/-! ## provider_system.go -/

/-- What `SystemProvider` asks of the operating system, by the answers. -/
structure SystemProvider where
  /-- Outcome of `os.Hostname()`. -/
  Hostname : Except GoString GoString
  /-- Outcome of `os.ReadFile` of the file `/etc/machine-id` under the root. -/
  machineId : Except GoString GoString
  /-- Outcome of `os.ReadFile` of the file `/etc/machine-location` under the root. -/
  machineLocation : Except GoString GoString
  /-- Outcome of `net.Dial("udp", ipHint)`: the error, or the local address as a string. -/
  outboundIP : Except GoString GoString
  /-- Constant `runtime.GOOS`. -/
  GOOS : GoString
  /-- Constant `runtime.GOARCH`. -/
  GOARCH : GoString

namespace SystemProvider

/-- Method `getMachineLocation`. -/
def getMachineLocation (p : SystemProvider) : List GoString :=
  match p.machineLocation with
  | .error _ => [str "", str ""]
  | .ok content => Split (Trim content 10) 58

/-- Method `getOutboundIP`; `none` when it ends in `log.Fatal`. -/
def getOutboundIP (p : SystemProvider) : Option GoString :=
  match p.outboundIP with
  | .error _ => none
  | .ok ip => some ip

/-- Method `ProvideHostInfo`; `none` when it ends in `log.Fatal` or when `loc[0]` or `loc[1]`
is out of range. -/
def ProvideHostInfo (p : SystemProvider) (hic : HostInfoCollector) : Option HostInfoCollector :=
  match p.Hostname with
  | .error _ => none
  | .ok hostname =>
    let b : GoString :=
      match p.machineId with
      | .error _ => []
      | .ok b => b
    let loc := p.getMachineLocation
    match p.getOutboundIP with
    | none => none
    | some ip =>
      match loc[0]? with
      | none => none
      | some latitude =>
        match loc[1]? with
        | none => none
        | some longitude =>
          some { hic with
            Os := p.GOOS
            Arch := p.GOARCH
            Ip := ip
            Latitutde := latitude
            Longitude := longitude
            Hostname := hostname
            Id := Trim b 10 }

/-- Method `ProvideWorkloadInfoLabels`. -/
def ProvideWorkloadInfoLabels (p : SystemProvider) (wic : WorkloadInfoCollector) :
    WorkloadInfoCollector :=
  let b : GoString :=
    match p.machineId with
    | .error _ => []
    | .ok b => b
  { wic with HostId := Trim b 10 }

end SystemProvider

/-! ## main.go: what is attached to the orchestrator-info runner -/

/-- One call of a provider operation attached to `oicr`, with what the outside world answers at
that moment. -/
inductive OrchCall where
  /-- `kubernetesProvider.ProvideOCMOrchInfo`. -/
  | ocm (kp : KubernetesProvider) (items : List Pod)
  /-- `kubernetesProvider.ProvideNuvlaOrchestratorInfo`. -/
  | k8sNuvla (nodeName : GoString) (items : List Pod) (nuvlaContextFile : GoString → GoString)
      (notExist : GoString → Bool) (ReadFile : GoString → Except GoString GoString)
      (Unmarshal : GoString → UnmarshalOutcome)
  /-- `dockerProvider.ProvideNuvlaOrchestratorInfo`. -/
  | dockerNuvla (nuvlaContextFile : GoString)
      (ReadFile : GoString → Except GoString GoString) (Unmarshal : GoString → UnmarshalOutcome)

/-- The collector after one call; `none` when the call does not return. -/
def OrchCall.run : OrchCall → OrchInfoCollector → Option OrchInfoCollector
  | .ocm kp items, c => kp.ProvideOCMOrchInfo items c
  | .k8sNuvla nodeName items file notExist ReadFile Unmarshal, c =>
    KubernetesProvider.ProvideNuvlaOrchestratorInfo nodeName items file notExist ReadFile
      Unmarshal c
  | .dockerNuvla file ReadFile Unmarshal, c =>
    DockerProvider.ProvideNuvlaOrchestratorInfo file ReadFile Unmarshal c

/-- The collector after a sequence of calls, over any number of ticks. -/
def runCalls : List OrchCall → OrchInfoCollector → Option OrchInfoCollector
  | [], c => some c
  | call :: rest, c => (call.run c).bind (runCalls rest)

/-! # Theorems

## Attribute sets -/

theorem upsert_value (kv : KeyValue) (s : AttributeSet) (k : GoString) :
    AttributeSet.value (upsert kv s) k =
      if kv.Key = k then some kv.Value else AttributeSet.value s k := by
  induction s with
  | nil =>
    by_cases hk : kv.Key = k <;> simp [upsert, AttributeSet.value, List.find?, hk]
  | cons x xs ih =>
    unfold upsert
    by_cases h1 : bytesLess kv.Key x.Key = true
    · rw [if_pos h1]
      by_cases hk : kv.Key = k <;> simp [AttributeSet.value, List.find?, hk]
    · rw [if_neg h1]
      by_cases h2 : kv.Key = x.Key
      · rw [if_pos h2]
        by_cases hk : kv.Key = k
        · simp [AttributeSet.value, List.find?, hk]
        · have hx : ¬ x.Key = k := fun h => hk (h2.trans h)
          simp [AttributeSet.value, List.find?, hk, hx]
      · rw [if_neg h2]
        by_cases hx : x.Key = k
        · have hk : ¬ kv.Key = k := fun h => h2 (h.trans hx.symm)
          simp [AttributeSet.value, List.find?, hx, hk]
        · have ih2 := ih
          simp only [AttributeSet.value] at ih2
          simp [AttributeSet.value, List.find?, hx, ih2]

/-- Lookup in the set built from a sequence of insertions: the value given last for the key. -/
theorem foldl_upsert_value (kvs : List KeyValue) (s : AttributeSet) (k : GoString) :
    AttributeSet.value (kvs.foldl (fun s kv => upsert kv s) s) k =
      ((kvs.reverse.find? (fun kv => kv.Key = k)).map KeyValue.Value).or
        (AttributeSet.value s k) := by
  induction kvs generalizing s with
  | nil => simp
  | cons kv rest ih =>
    rw [List.foldl_cons, ih, upsert_value]
    simp only [List.reverse_cons, List.find?_append]
    cases h : List.find? (fun kv => decide (kv.Key = k)) rest.reverse with
    | some x => simp
    | none =>
      by_cases hk : kv.Key = k <;> simp [List.find?, hk]

theorem NewSet_value (kvs : List KeyValue) (k : GoString) :
    AttributeSet.value (NewSet kvs) k =
      (kvs.reverse.find? (fun kv => kv.Key = k)).map KeyValue.Value := by
  unfold NewSet
  rw [foldl_upsert_value]
  simp [AttributeSet.value]

/-! ## The runner -/

namespace AsyncCollectorRunner

variable {T : Type}

theorem foldl_Append (dps : List (ProviderFn T)) (c : AsyncCollectorRunner T) :
    dps.foldl AppendAsyncDataProvider c =
      { Collector := c.Collector, Interval := c.Interval, Providers := c.Providers ++ dps } := by
  induction dps generalizing c with
  | nil => simp
  | cons dp rest ih => simp [ih, AppendAsyncDataProvider]

theorem rangeProviders_eq (ctx : Context) (ps : List (ProviderFn T)) (i : Nat) (col : T)
    (log : List Event) :
    rangeProviders ctx ps i col log =
      (composition ctx ps col).map
        (fun col1 => (col1, log ++ (List.range' i ps.length).map Event.exec)) := by
  induction ps generalizing i col log with
  | nil => simp [rangeProviders, composition]
  | cons exec rest ih =>
    simp only [rangeProviders, composition]
    cases h : exec ctx col with
    | none => simp
    | some col1 =>
      simp [ih, List.range'_succ]

end AsyncCollectorRunner

/-! ## Observation loops -/

theorem foldl_observe {α : Type} (f : α → Observation) (l : List α) (o : Observer) :
    l.foldl (fun o x => o ++ [f x]) o = o ++ l.map f := by
  induction l generalizing o with
  | nil => simp
  | cons x xs ih => simp [ih]

theorem foldl_annotations (m : GoMap) (acc : List KeyValue) :
    m.foldl (fun acc kv => acc ++ [attr kv.1 kv.2]) acc =
      acc ++ m.map (fun kv => attr kv.1 kv.2) := by
  induction m generalizing acc with
  | nil => simp
  | cons x xs ih => simp [ih]

/-- The attributes of the observation of one workload. -/
theorem observeWorkload_eq (c : WorkloadInfoCollector) (o : Observer) (w : WorkloadInfo) :
    c.observeWorkload o w = o ++ [⟨c.gauge, 1,
      NewSet ([attr (str "name") w.Name, attr (str "cluster_id") c.ClusterId,
        attr (str "host_id") c.HostId] ++ w.Annotations.map (fun kv => attr kv.1 kv.2))⟩] := by
  simp [WorkloadInfoCollector.observeWorkload, foldl_annotations, ObserveInt64,
    WithAttributeSet]

theorem find_annotation_absent (m : GoMap) (k : GoString) (h : k ∉ m.map Prod.fst) :
    (m.map (fun kv => attr kv.1 kv.2)).reverse.find? (fun kv => kv.Key = k) = none := by
  rw [List.find?_eq_none]
  intro x hx
  simp only [List.mem_reverse, List.mem_map] at hx
  obtain ⟨kv, hkv, rfl⟩ := hx
  simp only [attr, decide_eq_true_eq]
  intro hk
  exact h (List.mem_map.mpr ⟨kv, hkv, hk⟩)

theorem find_annotation_present (m : GoMap) (hnd : (m.map Prod.fst).Nodup) (k v : GoString)
    (h : (k, v) ∈ m) :
    (m.map (fun kv => attr kv.1 kv.2)).reverse.find? (fun kv => kv.Key = k) =
      some (attr k v) := by
  induction m with
  | nil => simp at h
  | cons x xs ih =>
    simp only [List.map_cons, List.nodup_cons] at hnd
    simp only [List.map_cons, List.reverse_cons, List.find?_append]
    rcases List.mem_cons.mp h with hx | hx
    · subst hx
      rw [find_annotation_absent xs k hnd.1]
      simp [attr]
    · rw [ih hnd.2 hx]
      simp

/-- The value that the attribute set of a workload holds for a key: the annotation with that
key when there is one, else what the three fixed attributes give. -/
theorem workload_set_value (name cluster host : GoString) (m : GoMap) (k : GoString) :
    AttributeSet.value (NewSet ([attr (str "name") name, attr (str "cluster_id") cluster,
        attr (str "host_id") host] ++ m.map (fun kv => attr kv.1 kv.2))) k =
      (((m.map (fun kv => attr kv.1 kv.2)).reverse.find? (fun kv => kv.Key = k)).map
        KeyValue.Value).or
        (AttributeSet.value [attr (str "host_id") host, attr (str "cluster_id") cluster,
          attr (str "name") name] k) := by
  rw [NewSet_value, List.reverse_append, List.find?_append]
  cases h : List.find? (fun kv => decide (kv.Key = k))
      (m.map (fun kv => attr kv.1 kv.2)).reverse with
  | some x => simp
  | none => simp [AttributeSet.value]

/-! ## The OCM arguments -/

theorem sliceFrom_spoke (N : GoString) :
    sliceFrom (str "--spoke-cluster-name=" ++ N) 21 = some N := by
  have h : (str "--spoke-cluster-name=").length = 21 := rfl
  unfold sliceFrom
  rw [if_pos (by simp [h]), ← h, List.drop_left]

theorem sliceFrom_agent (I : GoString) :
    sliceFrom (str "--agent-id=" ++ I) 11 = some I := by
  have h : (str "--agent-id=").length = 11 := rfl
  unfold sliceFrom
  rw [if_pos (by simp [h]), ← h, List.drop_left]

theorem hasPrefix_spoke_spoke (N : GoString) :
    HasPrefix (str "--spoke-cluster-name=" ++ N) (str "--spoke-cluster-name") = true := rfl

theorem hasPrefix_spoke_agent (N : GoString) :
    HasPrefix (str "--spoke-cluster-name=" ++ N) (str "--agent-id") = false := rfl

theorem hasPrefix_agent_agent (I : GoString) :
    HasPrefix (str "--agent-id=" ++ I) (str "--agent-id") = true := rfl

theorem hasPrefix_agent_spoke (I : GoString) :
    HasPrefix (str "--agent-id=" ++ I) (str "--spoke-cluster-name") = false := rfl

/-- The argument loop on the two OCM arguments, in either order. -/
theorem rangeArgs_ocm (N I : GoString) (args : List GoString)
    (h : args = [str "--spoke-cluster-name=" ++ N, str "--agent-id=" ++ I] ∨
      args = [str "--agent-id=" ++ I, str "--spoke-cluster-name=" ++ N]) :
    KubernetesProvider.rangeArgs args (str "") (str "") = some (N, I) := by
  rcases h with h | h <;> subst h <;>
    simp [KubernetesProvider.rangeArgs, sliceFrom_spoke, sliceFrom_agent,
      hasPrefix_spoke_spoke, hasPrefix_spoke_agent, hasPrefix_agent_agent,
      hasPrefix_agent_spoke]

theorem rangePods_append (kp : KubernetesProvider) (l1 l2 : List Pod) (c : OrchInfoCollector) :
    KubernetesProvider.rangePods kp (l1 ++ l2) c =
      (KubernetesProvider.rangePods kp l1 c).bind (KubernetesProvider.rangePods kp l2) := by
  induction l1 generalizing c with
  | nil => simp [KubernetesProvider.rangePods]
  | cons p rest ih =>
    simp only [List.cons_append, KubernetesProvider.rangePods]
    cases h : KubernetesProvider.ocmPod kp c p with
    | none => simp
    | some c1 => simp [ih]

/-- Pods whose name does not start with "klusterlet-work-agent" are passed over. -/
theorem rangePods_others (kp : KubernetesProvider) (l : List Pod) (c : OrchInfoCollector)
    (h : ∀ q ∈ l, HasPrefix q.ObjectMeta.Name (str "klusterlet-work-agent") = false) :
    KubernetesProvider.rangePods kp l c = some c := by
  induction l with
  | nil => rfl
  | cons p rest ih =>
    have hp := h p (List.mem_cons_self _ _)
    simp only [KubernetesProvider.rangePods, KubernetesProvider.ocmPod, hp]
    exact ih (fun q hq => h q (List.mem_cons_of_mem _ hq))

/-! ## Init and the poll loop -/

namespace AsyncCollectorRunner

variable {T : Type}

/-- What `Init` returns on a backend that creates the gauges and accepts the registration. -/
theorem Init_eq [AsyncCollector T] (c : AsyncCollectorRunner T) (meter : Meter) (col : T)
    (instruments : List (Option Int64ObservableGauge))
    (hget : AsyncCollector.GetMetrics c.Collector meter = some (col, instruments))
    (hreg : meter.registerFails instruments = false) :
    c.Init meter = some { Collector := col,
                          Interval := if c.Interval = 0 then 60 * Second else c.Interval,
                          Providers := c.Providers } := by
  unfold Init
  by_cases h : c.Interval = 0
  · simp [h, hget, hreg]
  · simp [h, hget, hreg]

/-- What `Init` returns, whenever it returns. -/
theorem Init_some [AsyncCollector T] (c c1 : AsyncCollectorRunner T) (meter : Meter)
    (h : c.Init meter = some c1) :
    c1.Interval = (if c.Interval = 0 then 60 * Second else c.Interval) ∧
      c1.Providers = c.Providers := by
  unfold Init at h
  by_cases h0 : c.Interval = 0
  · simp only [h0, if_true] at h
    split at h
    · exact absurd h (by simp)
    · split at h
      · exact absurd h (by simp)
      · cases h
        simp [h0]
  · simp only [h0, if_false] at h
    split at h
    · exact absurd h (by simp)
    · split at h
      · exact absurd h (by simp)
      · cases h
        simp [h0]

theorem sleeps_append (l1 l2 : List Event) : sleeps (l1 ++ l2) = sleeps l1 ++ sleeps l2 := by
  induction l1 with
  | nil => rfl
  | cons e rest ih => cases e <;> simp [sleeps, ih]

theorem sleeps_exec (l : List Nat) : sleeps (l.map Event.exec) = [] := by
  induction l with
  | nil => rfl
  | cons i rest ih => simp [sleeps, ih]

/-- One iteration keeps `Interval` and `Providers` and sleeps once, for `Interval`. -/
theorem tick_some (ctx : Context) (c c1 : AsyncCollectorRunner T) (log log1 : List Event)
    (h : tick ctx c log = some (c1, log1)) :
    c1.Interval = c.Interval ∧ c1.Providers = c.Providers ∧
      sleeps log1 = sleeps log ++ [c.Interval] := by
  unfold tick at h
  rw [rangeProviders_eq] at h
  cases hc : composition ctx c.Providers c.Collector with
  | none => simp [hc] at h
  | some col =>
    simp only [hc, Option.map_some', Option.some.injEq, Prod.mk.injEq] at h
    obtain ⟨h1, h2⟩ := h
    subst h1 h2
    simp [sleeps_append, sleeps_exec, sleeps]

/-- The first `n` iterations sleep `n` times, each time for `Interval`. -/
theorem Start_some (ctx : Context) (n : Nat) (c c1 : AsyncCollectorRunner T)
    (log log1 : List Event) (h : Start ctx n c log = some (c1, log1)) :
    c1.Interval = c.Interval ∧ sleeps log1 = sleeps log ++ List.replicate n c.Interval := by
  induction n generalizing c log with
  | zero =>
    simp only [Start, Option.some.injEq, Prod.mk.injEq] at h
    obtain ⟨h1, h2⟩ := h
    subst h1 h2
    simp
  | succ n ih =>
    simp only [Start] at h
    cases ht : tick ctx c log with
    | none => simp [ht] at h
    | some r =>
      obtain ⟨c2, log2⟩ := r
      simp only [ht] at h
      obtain ⟨hi, _, hs⟩ := tick_some ctx c c2 log log2 ht
      obtain ⟨hi2, hs2⟩ := ih c2 log2 h
      refine ⟨hi2.trans hi, ?_⟩
      rw [hs2, hs, hi, List.replicate_succ]
      simp

end AsyncCollectorRunner

/-! ## Claims -/

/-- Claim C1. Whatever provider functions are attached with `AppendAsyncDataProvider`
(duplicates included), each attachment goes to the end of the list and leaves the earlier
entries alone; one tick of the `Start` loop then calls the entries once each, in the order of
attachment, so that the collector after the tick is their left-to-right composition, followed by
one sleep of `Interval`. For three providers that return, attached in the order P1, P2, P3 to a
runner without providers, the collector after the tick is P3 (P2 (P1 collector)), so a field that
P3 writes holds the value of P3, also when P1 wrote it before. -/
theorem C1_tick_runs_providers_in_attachment_order {T : Type} (c : AsyncCollectorRunner T)
    (dps : List (ProviderFn T)) (ctx : Context) (log : List AsyncCollectorRunner.Event) :
    (dps.foldl AsyncCollectorRunner.AppendAsyncDataProvider c).Providers = c.Providers ++ dps ∧
    (∀ dp : ProviderFn T,
      (c.AppendAsyncDataProvider dp).Providers = c.Providers ++ [dp]) ∧
    AsyncCollectorRunner.tick ctx (dps.foldl AsyncCollectorRunner.AppendAsyncDataProvider c) log =
      (AsyncCollectorRunner.composition ctx (c.Providers ++ dps) c.Collector).map
        (fun col =>
          ({ Collector := col, Interval := c.Interval, Providers := c.Providers ++ dps },
            log ++ (List.range (c.Providers ++ dps).length).map AsyncCollectorRunner.Event.exec
              ++ [AsyncCollectorRunner.Event.sleep c.Interval])) ∧
    (∀ P1 P2 P3 : T → T, c.Providers = [] →
      dps = [AsyncCollectorRunner.returning P1, AsyncCollectorRunner.returning P2,
        AsyncCollectorRunner.returning P3] →
      ∃ c1 log1,
        AsyncCollectorRunner.tick ctx
          (dps.foldl AsyncCollectorRunner.AppendAsyncDataProvider c) log = some (c1, log1) ∧
        c1.Collector = P3 (P2 (P1 c.Collector)) ∧
        ∀ (V : Type) (field : T → V) (v : V), (∀ col, field (P3 col) = v) →
          field c1.Collector = v) := by
  refine ⟨?_, ?_, ?_, ?_⟩
  · rw [AsyncCollectorRunner.foldl_Append]
  · intro dp
    rfl
  · rw [AsyncCollectorRunner.foldl_Append]
    simp only [AsyncCollectorRunner.tick, AsyncCollectorRunner.rangeProviders_eq]
    cases h : AsyncCollectorRunner.composition ctx (c.Providers ++ dps) c.Collector with
    | none => simp
    | some col => simp [List.range_eq_range']
  · intro P1 P2 P3 hc hd
    rw [AsyncCollectorRunner.foldl_Append]
    subst hd
    refine ⟨⟨P3 (P2 (P1 c.Collector)), c.Interval, c.Providers ++
        [AsyncCollectorRunner.returning P1, AsyncCollectorRunner.returning P2,
          AsyncCollectorRunner.returning P3]⟩,
      log ++ [AsyncCollectorRunner.Event.exec 0, AsyncCollectorRunner.Event.exec 1,
        AsyncCollectorRunner.Event.exec 2, AsyncCollectorRunner.Event.sleep c.Interval],
      ?_, rfl, fun V field v hv => hv _⟩
    simp [AsyncCollectorRunner.tick, AsyncCollectorRunner.rangeProviders_eq, hc,
      AsyncCollectorRunner.composition, AsyncCollectorRunner.returning, List.range']

/-- Witness of C1: three providers on an orchestrator collector, the first and the third writing
`Type`; after the tick `Type` holds what the third wrote. -/
theorem C1_tick_runs_providers_in_attachment_order_witness :
    ∃ c1 log1,
      AsyncCollectorRunner.tick ⟨false⟩
        ([AsyncCollectorRunner.returning (fun col => { col with Type_ := str "p1" }),
          AsyncCollectorRunner.returning (fun col => { col with AgentId := str "p2" }),
          AsyncCollectorRunner.returning (fun col => { col with Type_ := str "p3" })].foldl
          AsyncCollectorRunner.AppendAsyncDataProvider
          (⟨⟨[], [], [], [], none, none⟩, 0, []⟩ : AsyncCollectorRunner OrchInfoCollector)) []
        = some (c1, log1) ∧
      c1.Collector.Type_ = str "p3" ∧ c1.Collector.AgentId = str "p2" := by
  obtain ⟨c1, log1, h1, h2, h3⟩ :=
    (C1_tick_runs_providers_in_attachment_order
      (⟨⟨[], [], [], [], none, none⟩, 0, []⟩ : AsyncCollectorRunner OrchInfoCollector)
      [AsyncCollectorRunner.returning (fun col => { col with Type_ := str "p1" }),
        AsyncCollectorRunner.returning (fun col => { col with AgentId := str "p2" }),
        AsyncCollectorRunner.returning (fun col => { col with Type_ := str "p3" })]
      ⟨false⟩ []).2.2.2 _ _ _ rfl rfl
  exact ⟨c1, log1, h1, h3 _ OrchInfoCollector.Type_ (str "p3") (fun _ => rfl), by rw [h2]⟩

/-- Claim C2. `OrchInfoCollector.CreateObservations` records nothing when `Type` is empty; when
`Type` is "ocm" it records two observations, first one on `gauge` with value 1 and the
attributes type, agent-id, agent-name and cluster_id, then one on `gaugeOld` with value 1 and
the attributes id and name only; for every other `Type` it records the first of the two only.
With `Type` "ocm", `AgentId` "a1" and `AgentName` "n1" these are the two observations of the
scenario. -/
theorem C2_orch_info_observations (c : OrchInfoCollector) (o : Observer) :
    (c.Type_ = str "" → c.CreateObservations o = o) ∧
    (c.Type_ = str "ocm" → c.CreateObservations o = o ++
      [⟨c.gauge, 1, [attr (str "agent-id") c.AgentId, attr (str "agent-name") c.AgentName,
          attr (str "cluster_id") c.ClusterId, attr (str "type") c.Type_]⟩,
        ⟨c.gaugeOld, 1, [attr (str "id") c.AgentId, attr (str "name") c.AgentName]⟩]) ∧
    (c.Type_ ≠ str "" → c.Type_ ≠ str "ocm" → c.CreateObservations o = o ++
      [⟨c.gauge, 1, [attr (str "agent-id") c.AgentId, attr (str "agent-name") c.AgentName,
          attr (str "cluster_id") c.ClusterId, attr (str "type") c.Type_]⟩]) := by
  have hset : WithAttributes [attr (str "type") c.Type_, attr (str "agent-id") c.AgentId,
      attr (str "agent-name") c.AgentName, attr (str "cluster_id") c.ClusterId] =
      [attr (str "agent-id") c.AgentId, attr (str "agent-name") c.AgentName,
        attr (str "cluster_id") c.ClusterId, attr (str "type") c.Type_] := rfl
  have hold : WithAttributes [attr (str "id") c.AgentId, attr (str "name") c.AgentName] =
      [attr (str "id") c.AgentId, attr (str "name") c.AgentName] := rfl
  refine ⟨?_, ?_, ?_⟩
  · intro h
    simp [OrchInfoCollector.CreateObservations, h]
  · intro h
    have hne : c.Type_ ≠ str "" := by rw [h]; decide
    simp only [OrchInfoCollector.CreateObservations, hset, hold, ObserveInt64]
    rw [if_pos hne, if_pos h]
    simp
  · intro h1 h2
    simp only [OrchInfoCollector.CreateObservations, hset, hold, ObserveInt64]
    rw [if_pos h1, if_neg h2]

/-- Witness of C2: the scenario with `Type` "ocm", `AgentId` "a1" and `AgentName` "n1". -/
theorem C2_orch_info_observations_witness :
    OrchInfoCollector.CreateObservations
        ⟨str "ocm", str "a1", str "n1", str "c1",
          some ⟨str "tlum_orch_info", []⟩, some ⟨str "tlum_ocm_agent_info", []⟩⟩ [] =
      [⟨some ⟨str "tlum_orch_info", []⟩, 1,
          [attr (str "agent-id") (str "a1"), attr (str "agent-name") (str "n1"),
            attr (str "cluster_id") (str "c1"), attr (str "type") (str "ocm")]⟩,
        ⟨some ⟨str "tlum_ocm_agent_info", []⟩, 1,
          [attr (str "id") (str "a1"), attr (str "name") (str "n1")]⟩] :=
  (C2_orch_info_observations
    ⟨str "ocm", str "a1", str "n1", str "c1",
      some ⟨str "tlum_orch_info", []⟩, some ⟨str "tlum_ocm_agent_info", []⟩⟩ []).2.1 rfl

/-- Claim C3, counterexample. A workload named "w" whose annotation map has the key "name" with
the value "x": the attribute set of its observation holds name = "x", not the workload's Name. -/
theorem C3_counterexample_annotation_named_name :
    (WorkloadInfoCollector.CreateObservations
        ⟨[⟨str "w", [], [(str "name", str "x")]⟩], str "h", str "c", none⟩ []).map
      (fun ob => ob.attributes.value (str "name")) = [some (str "x")] ∧
    some (str "x") ≠ some (str "w") := by
  constructor
  · rfl
  · decide

/-- Claim C3, amended. `WorkloadInfoCollector.CreateObservations` records one observation per
workload entry, in list order, each on `gauge` with value 1. The attribute set of the i-th
observation holds key = value for every annotation of the i-th workload, and it holds
name = the workload's Name, cluster_id = the collector's ClusterId and host_id = the collector's
HostId, each provided that the annotation map has no entry under that key (an annotation under
one of these three keys takes the place of the fixed attribute). -/
theorem C3_workload_observations (c : WorkloadInfoCollector) (o : Observer) :
    (c.CreateObservations o).length = o.length + c.RunningWorkloads.length ∧
    ∀ (i : Nat) (w : WorkloadInfo), c.RunningWorkloads[i]? = some w →
      ∃ ob, (c.CreateObservations o)[o.length + i]? = some ob ∧
        ob.instrument = c.gauge ∧ ob.value = 1 ∧
        ((w.Annotations.map Prod.fst).Nodup →
          ∀ k v, (k, v) ∈ w.Annotations → ob.attributes.value k = some v) ∧
        (str "name" ∉ w.Annotations.map Prod.fst →
          ob.attributes.value (str "name") = some w.Name) ∧
        (str "cluster_id" ∉ w.Annotations.map Prod.fst →
          ob.attributes.value (str "cluster_id") = some c.ClusterId) ∧
        (str "host_id" ∉ w.Annotations.map Prod.fst →
          ob.attributes.value (str "host_id") = some c.HostId) := by
  have hall : c.CreateObservations o = o ++ c.RunningWorkloads.map (fun w =>
      (⟨c.gauge, 1, NewSet ([attr (str "name") w.Name, attr (str "cluster_id") c.ClusterId,
        attr (str "host_id") c.HostId] ++ w.Annotations.map (fun kv => attr kv.1 kv.2))⟩ :
        Observation)) := by
    unfold WorkloadInfoCollector.CreateObservations
    rw [← foldl_observe]
    congr 1
    funext o1 w
    exact observeWorkload_eq c o1 w
  refine ⟨by simp [hall], ?_⟩
  intro i w hw
  refine ⟨⟨c.gauge, 1, NewSet ([attr (str "name") w.Name, attr (str "cluster_id") c.ClusterId,
    attr (str "host_id") c.HostId] ++ w.Annotations.map (fun kv => attr kv.1 kv.2))⟩,
    ?_, rfl, rfl, ?_, ?_, ?_, ?_⟩
  · rw [hall, List.getElem?_append_right (Nat.le_add_right _ _)]
    simp [hw]
  · intro hnd k v hkv
    rw [workload_set_value, find_annotation_present _ hnd k v hkv]
    simp [attr]
  · intro h
    rw [workload_set_value, find_annotation_absent _ _ h]
    rfl
  · intro h
    rw [workload_set_value, find_annotation_absent _ _ h]
    rfl
  · intro h
    rw [workload_set_value, find_annotation_absent _ _ h]
    rfl

/-- Witness of C3: one workload "w" with the annotation icos.app.x = "1". -/
theorem C3_workload_observations_witness :
    ∃ ob, (WorkloadInfoCollector.CreateObservations
        ⟨[⟨str "w", [], [(str "icos.app.x", str "1")]⟩], str "h", str "c", none⟩ [])[0]? =
          some ob ∧
      ob.value = 1 ∧
      ob.attributes.value (str "icos.app.x") = some (str "1") ∧
      ob.attributes.value (str "name") = some (str "w") ∧
      ob.attributes.value (str "cluster_id") = some (str "c") ∧
      ob.attributes.value (str "host_id") = some (str "h") := by
  obtain ⟨ob, h1, _, h3, h4, h5, h6, h7⟩ :=
    (C3_workload_observations
      ⟨[⟨str "w", [], [(str "icos.app.x", str "1")]⟩], str "h", str "c", none⟩ []).2 0
      ⟨str "w", [], [(str "icos.app.x", str "1")]⟩ rfl
  exact ⟨ob, h1, h3, h4 (by decide) _ _ (List.mem_singleton.mpr rfl), h5 (by decide),
    h6 (by decide), h7 (by decide)⟩

/-- Claim C4. `NodeMountedCollector.CreateObservations` records one observation per entry of
`AttachedPeripherals`, in list order; the observation of an entry has value 1 when the entry's
`Available` is true and 0 when it is false, and the attributes device = `Device` and
resource_path = `ResourcePath`. The observation at position i is a function of the entry at
position i alone. -/
theorem C4_node_mounted_observations (c : NodeMountedCollector) (o : Observer) :
    c.CreateObservations o = o ++ c.AttachedPeripherals.map (fun p =>
      (⟨c.gauge, if p.Available = true then 1 else 0,
        [attr (str "device") p.Device, attr (str "resource_path") p.ResourcePath]⟩ :
        Observation)) ∧
    (c.CreateObservations o).length = o.length + c.AttachedPeripherals.length ∧
    ∀ i : Nat, (c.CreateObservations o)[o.length + i]? =
      (c.AttachedPeripherals[i]?).map (fun p =>
        (⟨c.gauge, if p.Available = true then 1 else 0,
          [attr (str "device") p.Device, attr (str "resource_path") p.ResourcePath]⟩ :
          Observation)) := by
  have hall : c.CreateObservations o = o ++ c.AttachedPeripherals.map (fun p =>
      (⟨c.gauge, if p.Available = true then 1 else 0,
        [attr (str "device") p.Device, attr (str "resource_path") p.ResourcePath]⟩ :
        Observation)) := by
    unfold NodeMountedCollector.CreateObservations
    rw [← foldl_observe]
    congr 1
    funext o1 p
    have hset : WithAttributes [attr (str "device") p.Device,
        attr (str "resource_path") p.ResourcePath] =
        [attr (str "device") p.Device, attr (str "resource_path") p.ResourcePath] := rfl
    cases hp : p.Available <;>
      simp [NodeMountedCollector.observePeripheral, ObserveInt64, hset, hp]
  refine ⟨hall, by simp [hall], ?_⟩
  intro i
  rw [hall, List.getElem?_append_right (Nat.le_add_right _ _)]
  simp

/-- Claim C5. `HostInfoCollector.CreateObservations` records exactly one observation, whatever
the fields hold (empty strings included): on `gauge`, with value 1 and the seven attributes os,
ip, arch, latitude, longitude, hostname and id taken from `Os`, `Ip`, `Arch`, `Latitutde`,
`Longitude`, `Hostname` and `Id`. For `Id` "abc123" the observation has id = "abc123". -/
theorem C5_host_info_observation (c : HostInfoCollector) (o : Observer) :
    c.CreateObservations o = o ++ [⟨c.gauge, 1,
      [attr (str "arch") c.Arch, attr (str "hostname") c.Hostname, attr (str "id") c.Id,
        attr (str "ip") c.Ip, attr (str "latitude") c.Latitutde,
        attr (str "longitude") c.Longitude, attr (str "os") c.Os]⟩] ∧
    (HostInfoCollector.CreateObservations ⟨[], [], [], [], [], [], [], none⟩ []).length = 1 ∧
    (HostInfoCollector.CreateObservations ⟨[], [], [], [], [], [], str "abc123", none⟩ []).map
      (fun ob => (ob.value, ob.attributes.value (str "id"))) = [(1, some (str "abc123"))] := by
  refine ⟨rfl, rfl, rfl⟩

/-- Claim C6. `KubernetesProvider.ProvideOCMOrchInfo` called while `iAmTheLeader` is false
returns the collector with every field as it was. Called while `iAmTheLeader` is true, on a pod
list in which exactly one pod has a name starting with "klusterlet-work-agent", the first
container of that pod having the arguments "--spoke-cluster-name=N" and "--agent-id=I" (in
either order) with N and I not empty, it sets `Type` to "ocm", `AgentName` to N, `AgentId` to I
and `ClusterId` to the `Id` of the provider, and leaves the gauges alone. -/
theorem C6_ocm_orch_info_gated_on_leadership (kp : KubernetesProvider) (items : List Pod)
    (c : OrchInfoCollector) :
    (kp.iAmTheLeader = false → kp.ProvideOCMOrchInfo items c = some c) ∧
    (kp.iAmTheLeader = true →
      ∀ (before after : List Pod) (p : Pod) (first : Container) (others : List Container)
        (N I : GoString),
        items = before ++ p :: after →
        (∀ q ∈ before ++ after,
          HasPrefix q.ObjectMeta.Name (str "klusterlet-work-agent") = false) →
        HasPrefix p.ObjectMeta.Name (str "klusterlet-work-agent") = true →
        p.Spec.Containers = first :: others →
        (first.Args = [str "--spoke-cluster-name=" ++ N, str "--agent-id=" ++ I] ∨
          first.Args = [str "--agent-id=" ++ I, str "--spoke-cluster-name=" ++ N]) →
        N ≠ str "" → I ≠ str "" →
        kp.ProvideOCMOrchInfo items c =
          some { Type_ := str "ocm", AgentId := I, AgentName := N, ClusterId := kp.Id,
                 gauge := c.gauge, gaugeOld := c.gaugeOld }) := by
  constructor
  · intro h
    simp [KubernetesProvider.ProvideOCMOrchInfo, h]
  · intro h before after p first others N I hitems hothers hp hcont hargs hN hI
    have hb : ∀ q ∈ before, HasPrefix q.ObjectMeta.Name (str "klusterlet-work-agent") = false :=
      fun q hq => hothers q (List.mem_append_left _ hq)
    have ha : ∀ q ∈ after, HasPrefix q.ObjectMeta.Name (str "klusterlet-work-agent") = false :=
      fun q hq => hothers q (List.mem_append_right _ hq)
    subst hitems
    simp only [KubernetesProvider.ProvideOCMOrchInfo, h, Bool.not_true, Bool.false_eq_true,
      if_false]
    rw [rangePods_append, rangePods_others kp before c hb]
    simp only [Option.some_bind, KubernetesProvider.rangePods, KubernetesProvider.ocmPod, hp,
      if_true, hcont, rangeArgs_ocm N I first.Args hargs]
    rw [if_pos ⟨hN, hI⟩]
    exact rangePods_others kp after _ ha

/-- Witness of C6: a leader, one klusterlet pod between two other pods. -/
theorem C6_ocm_orch_info_gated_on_leadership_witness :
    KubernetesProvider.ProvideOCMOrchInfo ⟨false, str "uid"⟩
        [⟨⟨str "klusterlet-work-agent-0", [], []⟩, ⟨[], []⟩⟩]
        ⟨str "t", str "i", str "n", str "c", none, none⟩ =
      some ⟨str "t", str "i", str "n", str "c", none, none⟩ ∧
    KubernetesProvider.ProvideOCMOrchInfo ⟨true, str "uid"⟩
        [⟨⟨str "coredns", [], []⟩, ⟨[], []⟩⟩,
          ⟨⟨str "klusterlet-work-agent-0", [], []⟩,
            ⟨[], [⟨[str "--spoke-cluster-name=" ++ str "edge", str "--agent-id=" ++ str "a1"]⟩]⟩⟩,
          ⟨⟨str "kube-proxy", [], []⟩, ⟨[], [⟨[]⟩]⟩⟩]
        ⟨[], [], [], [], none, none⟩ =
      some ⟨str "ocm", str "a1", str "edge", str "uid", none, none⟩ :=
  ⟨(C6_ocm_orch_info_gated_on_leadership ⟨false, str "uid"⟩ _ _).1 rfl,
    (C6_ocm_orch_info_gated_on_leadership ⟨true, str "uid"⟩ _ _).2 rfl
      [⟨⟨str "coredns", [], []⟩, ⟨[], []⟩⟩] [⟨⟨str "kube-proxy", [], []⟩, ⟨[], [⟨[]⟩]⟩⟩]
      _ _ [] (str "edge") (str "a1") rfl (by decide) rfl rfl (Or.inl rfl) (by decide)
      (by decide)⟩

/-- Claim C7, counterexample. A runner configured with the negative interval -1ns: after
`Init` on an accepting backend the interval is still -1ns, not 60 seconds, and the poll loop
calls `time.Sleep(-1)` between the ticks. -/
theorem C7_counterexample_negative_interval :
    (-1 : Duration) ≤ 0 ∧
    (AsyncCollectorRunner.Init
      (⟨⟨[], [], [], [], [], [], [], none⟩, -1, []⟩ : AsyncCollectorRunner HostInfoCollector)
      acceptingMeter).map (fun c => c.Interval) = some (-1) ∧
    ((AsyncCollectorRunner.Init
      (⟨⟨[], [], [], [], [], [], [], none⟩, -1, []⟩ : AsyncCollectorRunner HostInfoCollector)
      acceptingMeter).bind (fun c => AsyncCollectorRunner.Start ⟨false⟩ 2 c [])).map
        (fun r => r.2) =
      some [AsyncCollectorRunner.Event.sleep (-1), AsyncCollectorRunner.Event.sleep (-1)] ∧
    (-1 : Duration) ≠ 60 * Second := by
  refine ⟨by decide, rfl, rfl, by decide⟩

/-- Claim C7, amended. On a backend that creates the gauges and accepts the registration, `Init`
of a runner whose configured `Interval` is exactly zero returns a runner whose `Interval` is 60
seconds, and each of the first n iterations of the poll loop sleeps for 60 seconds; `Init` of a
runner whose `Interval` is not zero (negative included) leaves `Interval` as configured. -/
theorem C7_zero_interval_in_effect_is_60s {T : Type} [AsyncCollector T]
    (c : AsyncCollectorRunner T) (meter : Meter) (col : T)
    (instruments : List (Option Int64ObservableGauge))
    (hget : AsyncCollector.GetMetrics c.Collector meter = some (col, instruments))
    (hreg : meter.registerFails instruments = false) :
    (c.Interval = 0 →
      ∃ c1, c.Init meter = some c1 ∧ c1.Interval = 60 * Second ∧
        ∀ (ctx : Context) (n : Nat) (c2 : AsyncCollectorRunner T)
          (log : List AsyncCollectorRunner.Event),
          AsyncCollectorRunner.Start ctx n c1 [] = some (c2, log) →
          AsyncCollectorRunner.sleeps log = List.replicate n (60 * Second)) ∧
    (c.Interval ≠ 0 → ∃ c1, c.Init meter = some c1 ∧ c1.Interval = c.Interval) := by
  have hinit := AsyncCollectorRunner.Init_eq c meter col instruments hget hreg
  constructor
  · intro h0
    refine ⟨_, hinit, by simp [h0], ?_⟩
    intro ctx n c2 log hstart
    have hs := (AsyncCollectorRunner.Start_some ctx n _ c2 [] log hstart).2
    simpa [h0, AsyncCollectorRunner.sleeps] using hs
  · intro h0
    exact ⟨_, hinit, by simp [h0]⟩

/-- Witness of C7: a host-info runner with interval 0 and no provider, on an accepting
backend. -/
theorem C7_zero_interval_in_effect_is_60s_witness :
    ∃ c1, AsyncCollectorRunner.Init
        (⟨⟨[], [], [], [], [], [], [], none⟩, 0, []⟩ : AsyncCollectorRunner HostInfoCollector)
        acceptingMeter = some c1 ∧
      c1.Interval = 60 * Second ∧
      ∀ c2 log, AsyncCollectorRunner.Start ⟨false⟩ 3 c1 [] = some (c2, log) →
        AsyncCollectorRunner.sleeps log = List.replicate 3 (60 * Second) := by
  obtain ⟨c1, h1, h2, h3⟩ :=
    (C7_zero_interval_in_effect_is_60s
      (⟨⟨[], [], [], [], [], [], [], none⟩, 0, []⟩ : AsyncCollectorRunner HostInfoCollector)
      acceptingMeter _ _ rfl rfl).1 rfl
  exact ⟨c1, h1, h2, fun c2 log h => h3 ⟨false⟩ 3 c2 log h⟩

/-- Claim C8. Whenever `Init` returns, a runner whose `Interval` was zero has `Interval` equal to
60 seconds and a runner whose `Interval` was positive has the `Interval` it was configured with;
and `Init` does return on every backend that creates the gauges and accepts the registration. -/
theorem C8_init_interval_default {T : Type} [AsyncCollector T] (c : AsyncCollectorRunner T)
    (meter : Meter) :
    (∀ c1, c.Init meter = some c1 →
      (c.Interval = 0 → c1.Interval = 60 * Second) ∧
      (0 < c.Interval → c1.Interval = c.Interval)) ∧
    (∀ col instruments, AsyncCollector.GetMetrics c.Collector meter = some (col, instruments) →
      meter.registerFails instruments = false →
      ∃ c1, c.Init meter = some c1 ∧
        (c.Interval = 0 → c1.Interval = 60 * Second) ∧
        (0 < c.Interval → c1.Interval = c.Interval)) := by
  have key : ∀ c1, c.Init meter = some c1 →
      (c.Interval = 0 → c1.Interval = 60 * Second) ∧
      (0 < c.Interval → c1.Interval = c.Interval) := by
    intro c1 h
    have hi := (AsyncCollectorRunner.Init_some c c1 meter h).1
    constructor
    · intro h0
      rw [hi, if_pos h0]
    · intro hpos
      rw [hi, if_neg (ne_of_gt hpos)]
  refine ⟨key, ?_⟩
  intro col instruments hget hreg
  exact ⟨_, AsyncCollectorRunner.Init_eq c meter col instruments hget hreg,
    key _ (AsyncCollectorRunner.Init_eq c meter col instruments hget hreg)⟩

/-- Witness of C8: an unset interval becomes 60 seconds, an interval of 5 minutes is kept. -/
theorem C8_init_interval_default_witness :
    (∃ c1, AsyncCollectorRunner.Init
        (⟨⟨[], [], [], [], [], [], [], none⟩, 0, []⟩ : AsyncCollectorRunner HostInfoCollector)
        acceptingMeter = some c1 ∧ c1.Interval = 60 * Second) ∧
    (∃ c1, AsyncCollectorRunner.Init
        (⟨⟨[], [], [], [], [], [], [], none⟩, 300 * Second, []⟩ :
          AsyncCollectorRunner HostInfoCollector)
        acceptingMeter = some c1 ∧ c1.Interval = 300 * Second) := by
  obtain ⟨a, ha, ha0, _⟩ :=
    (C8_init_interval_default
      (⟨⟨[], [], [], [], [], [], [], none⟩, 0, []⟩ : AsyncCollectorRunner HostInfoCollector)
      acceptingMeter).2 _ _ rfl rfl
  obtain ⟨b, hb, _, hbpos⟩ :=
    (C8_init_interval_default
      (⟨⟨[], [], [], [], [], [], [], none⟩, 300 * Second, []⟩ :
        AsyncCollectorRunner HostInfoCollector)
      acceptingMeter).2 _ _ rfl rfl
  exact ⟨⟨a, ha, ha0 rfl⟩, ⟨b, hb, hbpos (by decide)⟩⟩

/-- Claim C9, counterexample. A provider that is the leader, with pod name "me", is told that
the new leader is "other": `iAmTheLeader` is still true, and `ProvideOCMOrchInfo` called next on
a pod list with a klusterlet pod rewrites the collector. -/
theorem C9_counterexample_leader_stays_leader :
    str "other" ≠ str "me" ∧
    (KubernetesProvider.notify (str "me") ⟨true, str "uid"⟩
      (KubernetesProvider.Notification.newLeader (str "other"))).iAmTheLeader = true ∧
    KubernetesProvider.ProvideOCMOrchInfo
        (KubernetesProvider.notify (str "me") ⟨true, str "uid"⟩
          (KubernetesProvider.Notification.newLeader (str "other")))
        [⟨⟨str "klusterlet-work-agent-0", [], []⟩,
          ⟨[], [⟨[str "--spoke-cluster-name=edge", str "--agent-id=a1"]⟩]⟩⟩]
        ⟨[], [], [], [], none, none⟩ =
      some ⟨str "ocm", str "a1", str "edge", str "uid", none, none⟩ ∧
    (some ⟨str "ocm", str "a1", str "edge", str "uid", none, none⟩ : Option OrchInfoCollector) ≠
      some ⟨[], [], [], [], none, none⟩ := by
  refine ⟨by decide, rfl, rfl, by decide⟩

/-- Claim C9, amended. From every state (in particular from the leader state) a stopped-leading
notification sets `iAmTheLeader` to false, so that `ProvideOCMOrchInfo` called next returns the
collector as it was. A new-leader notification that reports an identity different from the pod
name leaves the provider as it was: one that is not the leader stays so and
`ProvideOCMOrchInfo` stays without effect, one that is the leader stays the leader until the
stopped-leading notification. -/
theorem C9_leadership_transitions (podName : GoString) (kp : KubernetesProvider) :
    (KubernetesProvider.notify podName kp
        KubernetesProvider.Notification.stoppedLeading).iAmTheLeader = false ∧
    (∀ items c, KubernetesProvider.ProvideOCMOrchInfo
        (KubernetesProvider.notify podName kp KubernetesProvider.Notification.stoppedLeading)
        items c = some c) ∧
    (∀ identity, identity ≠ podName →
      KubernetesProvider.notify podName kp
        (KubernetesProvider.Notification.newLeader identity) = kp ∧
      (kp.iAmTheLeader = false → ∀ items c, KubernetesProvider.ProvideOCMOrchInfo
        (KubernetesProvider.notify podName kp
          (KubernetesProvider.Notification.newLeader identity)) items c = some c)) := by
  refine ⟨rfl, ?_, ?_⟩
  · intro items c
    simp [KubernetesProvider.notify, KubernetesProvider.OnStoppedLeading,
      KubernetesProvider.ProvideOCMOrchInfo]
  · intro identity hne
    have hkeep : KubernetesProvider.notify podName kp
        (KubernetesProvider.Notification.newLeader identity) = kp := by
      simp [KubernetesProvider.notify, KubernetesProvider.OnNewLeader, hne]
    refine ⟨hkeep, ?_⟩
    intro hf items c
    rw [hkeep]
    simp [KubernetesProvider.ProvideOCMOrchInfo, hf]

/-- Witness of C9: a follower with pod name "me" is told that the new leader is "other". -/
theorem C9_leadership_transitions_witness :
    KubernetesProvider.notify (str "me") ⟨false, str "uid"⟩
        (KubernetesProvider.Notification.newLeader (str "other")) = ⟨false, str "uid"⟩ ∧
    KubernetesProvider.ProvideOCMOrchInfo
        (KubernetesProvider.notify (str "me") ⟨false, str "uid"⟩
          (KubernetesProvider.Notification.newLeader (str "other")))
        [⟨⟨str "klusterlet-work-agent-0", [], []⟩,
          ⟨[], [⟨[str "--spoke-cluster-name=edge", str "--agent-id=a1"]⟩]⟩⟩]
        ⟨[], [], [], [], none, none⟩ = some ⟨[], [], [], [], none, none⟩ :=
  ⟨((C9_leadership_transitions (str "me") ⟨false, str "uid"⟩).2.2 (str "other")
      (by decide)).1,
    ((C9_leadership_transitions (str "me") ⟨false, str "uid"⟩).2.2 (str "other")
      (by decide)).2 rfl _ _⟩

/-- Claim C10. When the Nuvla context file cannot be read,
`CommonProvideNuvlaOrchestratorInfo` returns the collector as it was. When the file is read and
the decoder reports an error, the call returns a collector whose `AgentId`, `AgentName` and
`ClusterId` are as they were and whose `Type` is "nuvla", whatever it was before: the
assignment to `Type` that stands before the decoding is not skipped. -/
theorem C10_nuvla_context_soft_failures (ReadFile : GoString → Except GoString GoString)
    (Unmarshal : GoString → UnmarshalOutcome) (nuvlaContextFile : GoString)
    (oic : OrchInfoCollector) :
    (∀ e, ReadFile nuvlaContextFile = Except.error e →
      CommonProvideNuvlaOrchestratorInfo ReadFile Unmarshal nuvlaContextFile oic = some oic) ∧
    (∀ nuvlaFile e, ReadFile nuvlaContextFile = Except.ok nuvlaFile →
      (Unmarshal nuvlaFile).err = some e →
      CommonProvideNuvlaOrchestratorInfo ReadFile Unmarshal nuvlaContextFile oic =
        some { Type_ := str "nuvla", AgentId := oic.AgentId, AgentName := oic.AgentName,
               ClusterId := oic.ClusterId, gauge := oic.gauge, gaugeOld := oic.gaugeOld }) := by
  constructor
  · intro e h
    simp [CommonProvideNuvlaOrchestratorInfo, h]
  · intro nuvlaFile e h herr
    simp [CommonProvideNuvlaOrchestratorInfo, h, herr]

/-- Witness of C10: the context file holds the one byte "\x7b", which the decoder rejects; a
collector whose `Type` was empty comes back with `Type` "nuvla". -/
theorem C10_nuvla_context_soft_failures_witness :
    CommonProvideNuvlaOrchestratorInfo (fun _ => Except.error (str "no such file or directory"))
        (fun _ => ⟨some (str "unexpected end of JSON input"), some ⟨[], []⟩⟩)
        (str "/nuvla_peripherals/.context") ⟨[], [], [], [], none, none⟩ =
      some ⟨[], [], [], [], none, none⟩ ∧
    CommonProvideNuvlaOrchestratorInfo (fun _ => Except.ok [123])
        (fun _ => ⟨some (str "unexpected end of JSON input"), some ⟨[], []⟩⟩)
        (str "/nuvla_peripherals/.context") ⟨[], [], [], [], none, none⟩ =
      some ⟨str "nuvla", [], [], [], none, none⟩ :=
  ⟨(C10_nuvla_context_soft_failures (fun _ => Except.error (str "no such file or directory"))
      _ _ _).1 _ rfl,
    (C10_nuvla_context_soft_failures (fun _ => Except.ok [123])
      (fun _ => ⟨some (str "unexpected end of JSON input"), some ⟨[], []⟩⟩) _ _).2 _ _ rfl rfl⟩

/-! ## Providers that do not return -/

/-- A provider that never returns stops the composition, wherever it stands in the list. -/
theorem composition_none {T : Type} (ctx : Context) (before after : List (ProviderFn T))
    (p : ProviderFn T) (hp : ∀ col, p ctx col = none) (col : T) :
    AsyncCollectorRunner.composition ctx (before ++ p :: after) col = none := by
  induction before generalizing col with
  | nil => simp [AsyncCollectorRunner.composition, hp]
  | cons q rest ih =>
    simp only [List.cons_append, AsyncCollectorRunner.composition]
    cases q ctx col with
    | none => rfl
    | some col1 => exact ih col1

theorem rangeArgs_none (l1 l2 : List GoString) (a : GoString)
    (ha : a = str "--spoke-cluster-name" ∨ a = str "--agent-id") (name id : GoString) :
    KubernetesProvider.rangeArgs (l1 ++ a :: l2) name id = none := by
  induction l1 generalizing name id with
  | nil =>
    rcases ha with ha | ha <;> subst ha <;> rfl
  | cons b rest ih =>
    simp only [List.cons_append, KubernetesProvider.rangeArgs]
    split
    · rfl
    · split
      · rfl
      · exact ih _ _

theorem rangePods_none (kp : KubernetesProvider) (before after : List Pod) (p : Pod)
    (hp : ∀ c, KubernetesProvider.ocmPod kp c p = none) (c : OrchInfoCollector) :
    KubernetesProvider.rangePods kp (before ++ p :: after) c = none := by
  induction before generalizing c with
  | nil => simp [KubernetesProvider.rangePods, hp]
  | cons q rest ih =>
    simp only [List.cons_append, KubernetesProvider.rangePods]
    cases KubernetesProvider.ocmPod kp c q with
    | none => rfl
    | some c1 => exact ih c1

/-! ## Split and Trim -/

theorem Split_no_sep (s : GoString) (sep : UInt8) (h : sep ∉ s) : Split s sep = [s] := by
  induction s with
  | nil => rfl
  | cons b rest ih =>
    have hb : b ≠ sep := fun hb => h (by simp [hb])
    have hrest : sep ∉ rest := fun hm => h (List.mem_cons_of_mem _ hm)
    simp [Split, hb, ih hrest]

theorem mem_Trim (s : GoString) (cut b : UInt8) (h : b ∈ Trim s cut) : b ∈ s := by
  unfold Trim at h
  rw [List.mem_reverse] at h
  have h1 := (List.dropWhile_sublist _).subset h
  rw [List.mem_reverse] at h1
  exact (List.dropWhile_sublist _).subset h1

/-! ## The type tag -/

theorem ocmPod_Type (kp : KubernetesProvider) (c c1 : OrchInfoCollector) (p : Pod)
    (h : KubernetesProvider.ocmPod kp c p = some c1) (hc : c.Type_ ≠ str "") :
    c1.Type_ ≠ str "" := by
  unfold KubernetesProvider.ocmPod at h
  split at h
  · split at h
    · exact absurd h (by simp)
    · split at h
      · exact absurd h (by simp)
      · split at h
        · cases h
          exact (by decide : str "ocm" ≠ str "")
        · cases h
          exact hc
  · cases h
    exact hc

theorem rangePods_Type (kp : KubernetesProvider) (items : List Pod) (c c1 : OrchInfoCollector)
    (h : KubernetesProvider.rangePods kp items c = some c1) (hc : c.Type_ ≠ str "") :
    c1.Type_ ≠ str "" := by
  induction items generalizing c with
  | nil =>
    simp only [KubernetesProvider.rangePods, Option.some.injEq] at h
    subst h
    exact hc
  | cons p rest ih =>
    simp only [KubernetesProvider.rangePods] at h
    cases hp : KubernetesProvider.ocmPod kp c p with
    | none => simp [hp] at h
    | some c2 =>
      simp only [hp] at h
      exact ih c2 h (ocmPod_Type kp c c2 p hp hc)

theorem ProvideOCMOrchInfo_Type (kp : KubernetesProvider) (items : List Pod)
    (c c1 : OrchInfoCollector) (h : kp.ProvideOCMOrchInfo items c = some c1)
    (hc : c.Type_ ≠ str "") : c1.Type_ ≠ str "" := by
  unfold KubernetesProvider.ProvideOCMOrchInfo at h
  split at h
  · cases h
    exact hc
  · exact rangePods_Type kp items c c1 h hc

theorem Common_Type (ReadFile : GoString → Except GoString GoString)
    (Unmarshal : GoString → UnmarshalOutcome) (file : GoString) (c c1 : OrchInfoCollector)
    (h : CommonProvideNuvlaOrchestratorInfo ReadFile Unmarshal file c = some c1)
    (hc : c.Type_ ≠ str "") : c1.Type_ ≠ str "" := by
  unfold CommonProvideNuvlaOrchestratorInfo at h
  split at h
  · cases h
    exact hc
  · simp only at h
    split at h
    · cases h
      exact (by decide : str "nuvla" ≠ str "")
    · split at h
      · exact absurd h (by simp)
      · cases h
        exact (by decide : str "nuvla" ≠ str "")

theorem OrchCall_Type (call : OrchCall) (c c1 : OrchInfoCollector)
    (h : call.run c = some c1) (hc : c.Type_ ≠ str "") : c1.Type_ ≠ str "" := by
  cases call with
  | ocm kp items => exact ProvideOCMOrchInfo_Type kp items c c1 h hc
  | k8sNuvla nodeName items file notExist ReadFile Unmarshal =>
    simp only [OrchCall.run, KubernetesProvider.ProvideNuvlaOrchestratorInfo] at h
    split at h
    · cases h
      exact hc
    · split at h
      · cases h
        exact hc
      · split at h
        · exact Common_Type _ _ _ c c1 h hc
        · cases h
          exact hc
    · cases h
      exact hc
  | dockerNuvla file ReadFile Unmarshal =>
    exact Common_Type _ _ _ c c1 h hc

theorem runCalls_Type (calls : List OrchCall) (c c1 : OrchInfoCollector)
    (h : runCalls calls c = some c1) (hc : c.Type_ ≠ str "") : c1.Type_ ≠ str "" := by
  induction calls generalizing c with
  | nil =>
    simp only [runCalls, Option.some.injEq] at h
    subst h
    exact hc
  | cons call rest ih =>
    simp only [runCalls] at h
    cases hr : call.run c with
    | none => simp [hr] at h
    | some c2 =>
      simp only [hr, Option.some_bind] at h
      exact ih c2 h (OrchCall_Type call c c2 hr hc)

/-! ## Claims, continued -/

/-- Claim C11. When `ContainerList` returns an error, `DockerProvider.ProvideWorkloadInfo` does
not return (it ends in `panic(err)`): the tick in which it is called does not finish, whatever
providers stand before and after it in the list, and neither does the poll loop. -/
theorem C11_container_list_error_panics (kd : DockerProvider) (e : GoString)
    (c : WorkloadInfoCollector) :
    kd.ProvideWorkloadInfo (Except.error e) c = none ∧
    ∀ (ctx : Context) (before after : List (ProviderFn WorkloadInfoCollector))
      (interval : Duration) (log : List AsyncCollectorRunner.Event) (n : Nat),
      AsyncCollectorRunner.tick ctx
        ⟨c, interval, before ++ (fun _ col => kd.ProvideWorkloadInfo (Except.error e) col) ::
          after⟩ log = none ∧
      AsyncCollectorRunner.Start ctx (n + 1)
        ⟨c, interval, before ++ (fun _ col => kd.ProvideWorkloadInfo (Except.error e) col) ::
          after⟩ log = none := by
  refine ⟨rfl, ?_⟩
  intro ctx before after interval log n
  have ht : AsyncCollectorRunner.tick ctx
      ⟨c, interval, before ++ (fun _ col => kd.ProvideWorkloadInfo (Except.error e) col) ::
        after⟩ log = none := by
    simp only [AsyncCollectorRunner.tick, AsyncCollectorRunner.rangeProviders_eq]
    rw [composition_none ctx before after _ (fun _ => rfl)]
    rfl
  exact ⟨ht, by simp only [AsyncCollectorRunner.Start, ht]⟩

/-- Claim C12. When the machine-location file is read and its content has no ':' (an empty file,
a single number), `getMachineLocation` returns a slice of one element and
`SystemProvider.ProvideHostInfo` does not return: `loc[1]` is out of range. -/
theorem C12_location_without_separator_panics (p : SystemProvider) (hic : HostInfoCollector)
    (content : GoString) (hread : p.machineLocation = Except.ok content)
    (hsep : (58 : UInt8) ∉ content) :
    p.getMachineLocation = [Trim content 10] ∧ p.ProvideHostInfo hic = none := by
  have hloc : p.getMachineLocation = [Trim content 10] := by
    simp only [SystemProvider.getMachineLocation, hread]
    exact Split_no_sep _ _ (fun h => hsep (mem_Trim _ _ _ h))
  refine ⟨hloc, ?_⟩
  unfold SystemProvider.ProvideHostInfo
  rw [hloc]
  cases p.Hostname with
  | error _ => rfl
  | ok hostname =>
    cases hip : p.getOutboundIP with
    | none => simp [hip]
    | some ip => simp [hip]

/-- Witness of C12: the machine-location file holds "45.1" and a line feed. -/
theorem C12_location_without_separator_panics_witness :
    SystemProvider.getMachineLocation
        ⟨Except.ok (str "host"), Except.ok (str "id"), Except.ok (str "45.1\n"),
          Except.ok (str "10.0.0.1"), str "linux", str "amd64"⟩ = [str "45.1"] ∧
    SystemProvider.ProvideHostInfo
        ⟨Except.ok (str "host"), Except.ok (str "id"), Except.ok (str "45.1\n"),
          Except.ok (str "10.0.0.1"), str "linux", str "amd64"⟩
        ⟨[], [], [], [], [], [], [], none⟩ = none :=
  C12_location_without_separator_panics
    ⟨Except.ok (str "host"), Except.ok (str "id"), Except.ok (str "45.1\n"),
      Except.ok (str "10.0.0.1"), str "linux", str "amd64"⟩
    ⟨[], [], [], [], [], [], [], none⟩ (str "45.1\n") rfl (by decide)

/-- Claim C13. Called by the leader on a pod list that holds a pod named with the prefix
"klusterlet-work-agent" whose first container has an argument that is exactly
"--spoke-cluster-name" or exactly "--agent-id", or that has no container,
`KubernetesProvider.ProvideOCMOrchInfo` does not return: the slice expression `a[21:]` or
`a[11:]`, or the index `Containers[0]`, is out of range. -/
theorem C13_ocm_arguments_out_of_range (kp : KubernetesProvider) (c : OrchInfoCollector)
    (before after : List Pod) (p : Pod) (hleader : kp.iAmTheLeader = true)
    (hname : HasPrefix p.ObjectMeta.Name (str "klusterlet-work-agent") = true)
    (hbad : p.Spec.Containers = [] ∨
      ∃ first others l1 a l2, p.Spec.Containers = first :: others ∧
        first.Args = l1 ++ a :: l2 ∧
        (a = str "--spoke-cluster-name" ∨ a = str "--agent-id")) :
    kp.ProvideOCMOrchInfo (before ++ p :: after) c = none := by
  have hp : ∀ c1, KubernetesProvider.ocmPod kp c1 p = none := by
    intro c1
    rcases hbad with h | ⟨first, others, l1, a, l2, hcont, hargs, ha⟩
    · simp [KubernetesProvider.ocmPod, hname, h]
    · simp [KubernetesProvider.ocmPod, hname, hcont, hargs, rangeArgs_none l1 l2 a ha]
  simp only [KubernetesProvider.ProvideOCMOrchInfo, hleader, Bool.not_true,
    Bool.false_eq_true, if_false]
  exact rangePods_none kp before after p hp c

/-- Witness of C13: the klusterlet pod gives the cluster name as an argument of its own. -/
theorem C13_ocm_arguments_out_of_range_witness :
    KubernetesProvider.ProvideOCMOrchInfo ⟨true, str "uid"⟩
        ([⟨⟨str "coredns", [], []⟩, ⟨[], []⟩⟩] ++
          ⟨⟨str "klusterlet-work-agent-0", [], []⟩,
            ⟨[], [⟨[] ++ str "--spoke-cluster-name" ::
              [str "edge", str "--agent-id=a1"]⟩]⟩⟩ :: [])
        ⟨[], [], [], [], none, none⟩ = none :=
  C13_ocm_arguments_out_of_range ⟨true, str "uid"⟩ ⟨[], [], [], [], none, none⟩
    [⟨⟨str "coredns", [], []⟩, ⟨[], []⟩⟩] []
    ⟨⟨str "klusterlet-work-agent-0", [], []⟩,
      ⟨[], [⟨[] ++ str "--spoke-cluster-name" :: [str "edge", str "--agent-id=a1"]⟩]⟩⟩
    rfl rfl (Or.inr ⟨_, _, [], _, _, rfl, rfl, Or.inl rfl⟩)

/-! ## The poll loop and the context -/

namespace AsyncCollectorRunner

variable {T : Type}

theorem composition_returning (ctx : Context) (fs : List (T → T)) (col : T) :
    composition ctx (fs.map returning) col = some (fs.foldl (fun c f => f c) col) := by
  induction fs generalizing col with
  | nil => rfl
  | cons f rest ih => simp [composition, returning, ih]

/-- Providers that return make every iteration of the loop run, whatever the context. -/
theorem Start_returning (ctx : Context) (fs : List (T → T)) (interval : Duration) (n : Nat)
    (col : T) (log : List Event) :
    ∃ col1, Start ctx n ⟨col, interval, fs.map returning⟩ log =
      some (⟨col1, interval, fs.map returning⟩,
        log ++ (List.replicate n
          ((List.range fs.length).map Event.exec ++ [Event.sleep interval])).flatten) := by
  induction n generalizing col log with
  | zero => exact ⟨col, by simp [Start]⟩
  | succ n ih =>
    have ht : tick ctx ⟨col, interval, fs.map returning⟩ log =
        some (⟨fs.foldl (fun c f => f c) col, interval, fs.map returning⟩,
          log ++ (List.range fs.length).map Event.exec ++ [Event.sleep interval]) := by
      simp [tick, rangeProviders_eq, composition_returning, List.range_eq_range']
    obtain ⟨col1, h1⟩ := ih (fs.foldl (fun c f => f c) col)
      (log ++ (List.range fs.length).map Event.exec ++ [Event.sleep interval])
    refine ⟨col1, ?_⟩
    simp only [Start, ht, List.replicate_succ, List.flatten_cons]
    rw [h1]
    simp only [List.append_assoc]

theorem composition_ctx (ctx1 ctx2 : Context) (gs : List (T → Option T)) (col : T) :
    composition ctx1 (gs.map (fun g _ c => g c)) col =
      composition ctx2 (gs.map (fun g _ c => g c)) col := by
  induction gs generalizing col with
  | nil => rfl
  | cons g rest ih =>
    simp only [List.map_cons, composition]
    cases g col with
    | none => rfl
    | some c1 => exact ih c1

theorem Start_ctx (ctx1 ctx2 : Context) (gs : List (T → Option T)) (interval : Duration)
    (n : Nat) (col : T) (log : List Event) :
    Start ctx1 n ⟨col, interval, gs.map (fun g _ c => g c)⟩ log =
      Start ctx2 n ⟨col, interval, gs.map (fun g _ c => g c)⟩ log := by
  induction n generalizing col log with
  | zero => rfl
  | succ n ih =>
    simp only [Start, tick, rangeProviders_eq]
    rw [composition_ctx ctx1 ctx2]
    cases composition ctx2 (gs.map (fun g _ c => g c)) col with
    | none => rfl
    | some c1 => exact ih c1 _

end AsyncCollectorRunner

/-! ## The peripherals loop -/

/-- The peripheral that `ProvideNuvlaAttachedPeripherals` makes of one entry of the file. -/
theorem rangePeripherals_eq (ToLower : GoString → GoString)
    (l : List (GoString × NuvlaPeripheralFileStruct)) (res : List Peripheral) :
    DockerProvider.rangePeripherals ToLower l res = res ++ l.filterMap (fun e =>
      if e.2.Interface = str "USB" then
        some { Device := ToLower (ReplaceAll e.2.Name 32 45) ++ str "_" ++
                 ToLower (ReplaceAll e.2.Identifier 58 95),
               ResourcePath := e.2.DevicePath, Available := e.2.Available }
      else none) := by
  induction l generalizing res with
  | nil => simp [DockerProvider.rangePeripherals]
  | cons e rest ih =>
    obtain ⟨k, v⟩ := e
    by_cases hv : v.Interface = str "USB"
    · simp [DockerProvider.rangePeripherals, hv, ih, List.filterMap_cons]
    · simp [DockerProvider.rangePeripherals, hv, ih, List.filterMap_cons]

/-! ## Claims, continued -/

/-- Claim C14, counterexample. A runner with one provider is started on a context that is
already cancelled: the loop still runs its iterations and calls the provider in each. -/
theorem C14_counterexample_loop_runs_when_cancelled :
    (AsyncCollectorRunner.Start (⟨true⟩ : Context) 2
      (⟨0, 1, [AsyncCollectorRunner.returning (fun n => n + 1)]⟩ : AsyncCollectorRunner Nat)
      []).map (fun r => (r.1.Collector, r.2)) =
      some (2, [AsyncCollectorRunner.Event.exec 0, AsyncCollectorRunner.Event.sleep 1,
        AsyncCollectorRunner.Event.exec 0, AsyncCollectorRunner.Event.sleep 1]) := rfl

/-- Claim C14, amended. The poll loop launched by `Start` never looks at its context, it only
hands it to the providers: with providers that return, each of the first n iterations calls
every attached provider once, in order, and sleeps `Interval`, for every n and on a cancelled
context as on a live one; and with providers that do not look at the context either, the loop
does on a cancelled context exactly what it does on a live one. -/
theorem C14_poll_loop_ignores_cancellation {T : Type} (fs : List (T → T))
    (gs : List (T → Option T)) (interval : Duration) (n : Nat) (col : T)
    (log : List AsyncCollectorRunner.Event) :
    (∀ ctx : Context, ∃ col1,
      AsyncCollectorRunner.Start ctx n
        ⟨col, interval, fs.map AsyncCollectorRunner.returning⟩ log =
        some (⟨col1, interval, fs.map AsyncCollectorRunner.returning⟩,
          log ++ (List.replicate n
            ((List.range fs.length).map AsyncCollectorRunner.Event.exec ++
              [AsyncCollectorRunner.Event.sleep interval])).flatten)) ∧
    AsyncCollectorRunner.Start ⟨true⟩ n ⟨col, interval, gs.map (fun g _ c => g c)⟩ log =
      AsyncCollectorRunner.Start ⟨false⟩ n ⟨col, interval, gs.map (fun g _ c => g c)⟩ log :=
  ⟨fun ctx => AsyncCollectorRunner.Start_returning ctx fs interval n col log,
    AsyncCollectorRunner.Start_ctx _ _ gs interval n col log⟩

/-- Claim C15. When the peripherals file is read and decoded,
`DockerProvider.ProvideNuvlaAttachedPeripherals` replaces `AttachedPeripherals`: the new list
does not depend on the previous one, and it is a permutation of the list that holds, for each
entry of the file whose `Interface` is exactly "USB", one peripheral with `Device` =
lower-case(`Name` with every space replaced by '-') + "_" + lower-case(`Identifier` with every
':' replaced by '_'), `ResourcePath` = `DevicePath` and `Available` = `Available`; the other
entries are dropped. When the file cannot be read or decoded the collector is left as it was. -/
theorem C15_peripherals_replaced (ToLower : GoString → GoString)
    (ReadFile : GoString → Except GoString GoString) (Unmarshal : GoString → PeripheralsOutcome)
    (peripheral_files : GoString) (oic : NodeMountedCollector) :
    (∀ e, ReadFile peripheral_files = Except.error e →
      DockerProvider.ProvideNuvlaAttachedPeripherals ToLower ReadFile Unmarshal
        peripheral_files oic = oic) ∧
    (∀ nuvlaFile e, ReadFile peripheral_files = Except.ok nuvlaFile →
      (Unmarshal nuvlaFile).err = some e →
      DockerProvider.ProvideNuvlaAttachedPeripherals ToLower ReadFile Unmarshal
        peripheral_files oic = oic) ∧
    (∀ nuvlaFile, ReadFile peripheral_files = Except.ok nuvlaFile →
      (Unmarshal nuvlaFile).err = none →
      (∀ entries : List (GoString × NuvlaPeripheralFileStruct),
        entries.Perm (Unmarshal nuvlaFile).nuvlaPeripherals →
        (DockerProvider.ProvideNuvlaAttachedPeripherals ToLower ReadFile Unmarshal
          peripheral_files oic).AttachedPeripherals.Perm
          (entries.filterMap (fun e =>
            if e.2.Interface = str "USB" then
              some { Device := ToLower (ReplaceAll e.2.Name 32 45) ++ str "_" ++
                       ToLower (ReplaceAll e.2.Identifier 58 95),
                     ResourcePath := e.2.DevicePath, Available := e.2.Available }
            else none))) ∧
      (DockerProvider.ProvideNuvlaAttachedPeripherals ToLower ReadFile Unmarshal
        peripheral_files oic).gauge = oic.gauge ∧
      ∀ previous : NodeMountedCollector,
        (DockerProvider.ProvideNuvlaAttachedPeripherals ToLower ReadFile Unmarshal
          peripheral_files previous).AttachedPeripherals =
        (DockerProvider.ProvideNuvlaAttachedPeripherals ToLower ReadFile Unmarshal
          peripheral_files oic).AttachedPeripherals) := by
  refine ⟨?_, ?_, ?_⟩
  · intro e h
    simp [DockerProvider.ProvideNuvlaAttachedPeripherals, h]
  · intro nuvlaFile e h herr
    simp [DockerProvider.ProvideNuvlaAttachedPeripherals, h, herr]
  · intro nuvlaFile h herr
    have hrun : ∀ c : NodeMountedCollector,
        DockerProvider.ProvideNuvlaAttachedPeripherals ToLower ReadFile Unmarshal
          peripheral_files c =
        { c with AttachedPeripherals :=
            DockerProvider.rangePeripherals ToLower (Unmarshal nuvlaFile).nuvlaPeripherals [] } := by
      intro c
      simp [DockerProvider.ProvideNuvlaAttachedPeripherals, h, herr]
    refine ⟨?_, ?_, ?_⟩
    · intro entries hperm
      rw [hrun, rangePeripherals_eq]
      simp only [List.nil_append]
      exact (hperm.filterMap _).symm
    · rw [hrun]
    · intro previous
      rw [hrun, hrun]

/-- Witness of C15: a file with a USB camera and a Bluetooth device, read over a list that held
one stale peripheral. -/
theorem C15_peripherals_replaced_witness :
    (DockerProvider.ProvideNuvlaAttachedPeripherals asciiToLower
      (fun _ => Except.ok (str "file"))
      (fun _ => ⟨none,
        [(str "a", ⟨str "1A:2B", true, str "USB", str "/dev/video0", str "My Cam"⟩),
          (str "b", ⟨str "3C", true, str "Bluetooth", str "/dev/b", str "Phone"⟩)]⟩)
      (str "/nuvla_peripherals/.peripherals/local_peripherals.json")
      ⟨[⟨str "stale", str "/dev/s", false⟩], none⟩).AttachedPeripherals.Perm
      [⟨str "my-cam_1a_2b", str "/dev/video0", true⟩] :=
  ((C15_peripherals_replaced asciiToLower (fun _ => Except.ok (str "file"))
      (fun _ => ⟨none,
        [(str "a", ⟨str "1A:2B", true, str "USB", str "/dev/video0", str "My Cam"⟩),
          (str "b", ⟨str "3C", true, str "Bluetooth", str "/dev/b", str "Phone"⟩)]⟩)
      (str "/nuvla_peripherals/.peripherals/local_peripherals.json")
      ⟨[⟨str "stale", str "/dev/s", false⟩], none⟩).2.2 (str "file") rfl rfl).1 _
    (List.Perm.refl _)

/-- Claim C17. No operation attached to the orchestrator-info runner clears the type tag. For a
collector whose `Type` is not empty, `Type` is not empty after `ProvideOCMOrchInfo` and after
`CommonProvideNuvlaOrchestratorInfo`, whenever they return and whatever the pod list, the
leadership flag, the content of the context file or the read error; and after any sequence of
calls of the three attached operations that return, over any number of ticks and with any
leadership flag at each call, `Type` is still not empty and `CreateObservations` records at
least one observation. -/
theorem C17_type_tag_never_cleared (c : OrchInfoCollector) (hc : c.Type_ ≠ str "") :
    (∀ (kp : KubernetesProvider) (items : List Pod) (c1 : OrchInfoCollector),
      kp.ProvideOCMOrchInfo items c = some c1 → c1.Type_ ≠ str "") ∧
    (∀ (kp : KubernetesProvider) (items : List Pod), kp.iAmTheLeader = false →
      kp.ProvideOCMOrchInfo items c = some c) ∧
    (∀ (ReadFile : GoString → Except GoString GoString)
      (Unmarshal : GoString → UnmarshalOutcome) (nuvlaContextFile : GoString)
      (c1 : OrchInfoCollector),
      CommonProvideNuvlaOrchestratorInfo ReadFile Unmarshal nuvlaContextFile c = some c1 →
      c1.Type_ ≠ str "") ∧
    (∀ (calls : List OrchCall) (c1 : OrchInfoCollector), runCalls calls c = some c1 →
      c1.Type_ ≠ str "" ∧
      ∀ o : Observer, o.length + 1 ≤ (c1.CreateObservations o).length) := by
  refine ⟨?_, ?_, ?_, ?_⟩
  · intro kp items c1 h
    exact ProvideOCMOrchInfo_Type kp items c c1 h hc
  · intro kp items hl
    simp [KubernetesProvider.ProvideOCMOrchInfo, hl]
  · intro ReadFile Unmarshal file c1 h
    exact Common_Type ReadFile Unmarshal file c c1 h hc
  · intro calls c1 h
    have h1 := runCalls_Type calls c c1 h hc
    refine ⟨h1, ?_⟩
    intro o
    unfold OrchInfoCollector.CreateObservations
    rw [if_pos h1]
    by_cases hocm : c1.Type_ = str "ocm"
    · simp [hocm, ObserveInt64]
    · simp [hocm, ObserveInt64]

/-- Witness of C17: a collector that a tick as leader has filled; the next tick runs as a
follower, with an unreadable context file; the type tag stays and a scrape records an
observation. -/
theorem C17_type_tag_never_cleared_witness :
    ∃ c1, runCalls
        [OrchCall.ocm ⟨false, str "uid"⟩ [],
          OrchCall.dockerNuvla (str "/nuvla_peripherals/.context")
            (fun _ => Except.error (str "no such file or directory"))
            (fun _ => ⟨some (str "unexpected end of JSON input"), some ⟨[], []⟩⟩)]
        ⟨str "ocm", str "a1", str "edge", str "uid", none, none⟩ = some c1 ∧
      c1.Type_ ≠ str "" ∧ 0 + 1 ≤ (c1.CreateObservations []).length := by
  obtain ⟨h1, h2⟩ :=
    (C17_type_tag_never_cleared ⟨str "ocm", str "a1", str "edge", str "uid", none, none⟩
      (by decide)).2.2.2
      [OrchCall.ocm ⟨false, str "uid"⟩ [],
        OrchCall.dockerNuvla (str "/nuvla_peripherals/.context")
          (fun _ => Except.error (str "no such file or directory"))
          (fun _ => ⟨some (str "unexpected end of JSON input"), some ⟨[], []⟩⟩)]
      ⟨str "ocm", str "a1", str "edge", str "uid", none, none⟩ rfl
  exact ⟨_, rfl, h1, h2 []⟩

/-! ## Runes -/

theorem runeWidth_pos (s : GoString) (h : s ≠ []) : 1 ≤ runeWidth s := by
  cases s with
  | nil => exact absurd rfl h
  | cons b0 rest =>
    rcases rest with _ | ⟨b1, _ | ⟨b2, _ | ⟨b3, r⟩⟩⟩ <;>
      simp only [runeWidth] <;> split_ifs <;> omega

theorem runeWidth_le (s : GoString) : runeWidth s ≤ s.length := by
  cases s with
  | nil => simp [runeWidth]
  | cons b0 rest =>
    rcases rest with _ | ⟨b1, _ | ⟨b2, _ | ⟨b3, r⟩⟩⟩ <;>
      simp only [runeWidth, List.length_cons, List.length_nil] <;> split_ifs <;> omega

theorem runesFuel_fuel (n m : Nat) (s : GoString) (hn : s.length ≤ n) (hm : s.length ≤ m) :
    runesFuel n s = runesFuel m s := by
  induction n generalizing m s with
  | zero =>
    have hs : s = [] := List.length_eq_zero.mp (Nat.le_zero.mp hn)
    subst hs
    cases m <;> simp [runesFuel]
  | succ n ih =>
    by_cases hs : s = []
    · subst hs
      cases m <;> simp [runesFuel]
    · cases m with
      | zero => exact absurd (List.length_eq_zero.mp (Nat.le_zero.mp hm)) hs
      | succ m =>
        have hpos := runeWidth_pos s hs
        have hlen : (s.drop (runeWidth s)).length + 1 ≤ s.length := by
          have := List.length_pos.mpr hs
          rw [List.length_drop]
          omega
        simp only [runesFuel, hs, if_false]
        rw [ih m (s.drop (runeWidth s)) (by omega) (by omega)]

/-- The first rune and the runes of the rest. -/
theorem runes_eq (s : GoString) (hs : s ≠ []) :
    runes s = s.take (runeWidth s) :: runes (s.drop (runeWidth s)) := by
  have hpos := runeWidth_pos s hs
  have hlen := List.length_pos.mpr hs
  unfold runes
  obtain ⟨n, hn⟩ : ∃ n, s.length = n + 1 := ⟨s.length - 1, by omega⟩
  rw [hn]
  simp only [runesFuel, hs, if_false]
  rw [runesFuel_fuel n (s.drop (runeWidth s)).length _
    (by rw [List.length_drop]; omega) (Nat.le_refl _)]

theorem runes_nil : runes [] = [] := rfl

/-- The runes of a string, put together again, are the string. -/
theorem runes_flatten (s : GoString) : (runes s).flatten = s := by
  generalize hn : s.length = n
  induction n using Nat.strong_induction_on generalizing s with
  | _ n ih =>
    by_cases hs : s = []
    · subst hs
      rfl
    · have hpos := runeWidth_pos s hs
      have hlen := List.length_pos.mpr hs
      rw [runes_eq s hs, List.flatten_cons,
        ih (s.drop (runeWidth s)).length (by rw [List.length_drop]; omega) _ rfl]
      exact List.take_append_drop _ _

theorem runes_ne_nil (s : GoString) (hs : s ≠ []) : runes s ≠ [] := by
  rw [runes_eq s hs]
  exact List.cons_ne_nil _ _

/-- A string without the byte `b` has no rune that is the byte `b` alone. -/
theorem runes_not_byte (s : GoString) (b : UInt8) (h : b ∉ s) :
    ∀ r ∈ runes s, r ≠ [b] := by
  intro r hr hrb
  apply h
  rw [← runes_flatten s, List.mem_flatten]
  exact ⟨r, hr, by rw [hrb]; exact List.mem_singleton.mpr rfl⟩

theorem runes_ascii (a : UInt8) (X : GoString) (ha : a < 0x80) :
    runes (a :: X) = [a] :: runes X := by
  have hw : runeWidth (a :: X) = 1 := by simp [runeWidth, ha]
  rw [runes_eq _ (List.cons_ne_nil _ _), hw]
  rfl

theorem u8_not_le (a lo : UInt8) (ha : a < 0x80) (hlo : 0x80 ≤ lo) : ¬ lo ≤ a := by
  change a.val < (0x80 : UInt8).val at ha
  change (0x80 : UInt8).val ≤ lo.val at hlo
  change ¬ (lo.val ≤ a.val)
  exact not_le.mpr (lt_of_lt_of_le ha hlo)

theorem acceptLo_ge (b0 : UInt8) : 0x80 ≤ acceptLo b0 := by
  unfold acceptLo
  split_ifs <;> decide

theorem isCont_ascii (a : UInt8) (ha : a < 0x80) : isCont a = false := by
  have := u8_not_le a 0x80 ha (by decide)
  simp [isCont, this]

/-- An ASCII byte that follows does not change the width of the first rune. -/
theorem runeWidth_append_ascii (P X : GoString) (a : UInt8) (hP : P ≠ []) (ha : a < 0x80) :
    runeWidth (P ++ a :: X) = runeWidth P := by
  have h1 := isCont_ascii a ha
  have h2 : ∀ b0, ¬ acceptLo b0 ≤ a := fun b0 => u8_not_le a _ ha (acceptLo_ge b0)
  cases P with
  | nil => exact absurd rfl hP
  | cons b0 rest =>
    rcases rest with _ | ⟨b1, _ | ⟨b2, _ | ⟨b3, r⟩⟩⟩ <;>
      rcases X with _ | ⟨x1, _ | ⟨x2, X⟩⟩ <;>
      simp [runeWidth, h1, h2]

/-- An ASCII byte starts a rune, whatever stands before it. -/
theorem runes_append_ascii (P X : GoString) (a : UInt8) (ha : a < 0x80) :
    runes (P ++ a :: X) = runes P ++ runes (a :: X) := by
  generalize hn : P.length = n
  induction n using Nat.strong_induction_on generalizing P with
  | _ n ih =>
    by_cases hP : P = []
    · subst hP
      rfl
    · have hw := runeWidth_append_ascii P X a hP ha
      have hpos := runeWidth_pos P hP
      have hle := runeWidth_le P
      have hlen := List.length_pos.mpr hP
      rw [runes_eq (P ++ a :: X) (by simp), hw, runes_eq P hP,
        List.take_append_of_le_length hle, List.drop_append_of_le_length hle,
        ih (P.drop (runeWidth P)).length (by rw [List.length_drop]; omega) _ rfl]
      rfl

/-! ## The regular expression -/

theorem matchItems_capture_all (rs : List GoString) (hne : rs ≠ [])
    (hnl : ∀ r ∈ rs, r ≠ [10]) :
    matchItems [Item.capturePlus] rs = some ([rs], []) := by
  induction rs with
  | nil => exact absurd rfl hne
  | cons r rest ih =>
    have hr : r ≠ [10] := hnl r (List.mem_cons_self _ _)
    by_cases hrest : rest = []
    · subst hrest
      simp [matchItems, hr]
    · have h1 := ih hrest (fun x hx => hnl x (List.mem_cons_of_mem _ hx))
      simp [matchItems, hr, h1, extendFirst]

/-- On an input without line feed, a match of an expression that ends in `(.+)` reaches the
end of the input. -/
theorem matchItems_rest_nil (rs : List GoString) (items : List Item)
    (m : List (List GoString) × List GoString) (hnl : ∀ r ∈ rs, r ≠ [10])
    (h : matchItems (items ++ [Item.capturePlus]) rs = some m) : m.2 = [] := by
  induction rs generalizing items m with
  | nil => cases items <;> simp [matchItems] at h
  | cons r rest ih =>
    have hr : r ≠ [10] := hnl r (List.mem_cons_self _ _)
    have hrest : ∀ x ∈ rest, x ≠ [10] := fun x hx => hnl x (List.mem_cons_of_mem _ hx)
    cases items with
    | nil =>
      rw [List.nil_append, matchItems_capture_all (r :: rest) (List.cons_ne_nil _ _) hnl] at h
      cases h
      rfl
    | cons it items1 =>
      cases it with
      | literal b =>
        simp only [List.cons_append, matchItems] at h
        split at h
        · exact ih items1 m hrest h
        · exact absurd h (by simp)
      | anyCharNotNL =>
        simp only [List.cons_append, matchItems, hr, if_false] at h
        exact ih items1 m hrest h
      | capturePlus =>
        simp only [List.cons_append, matchItems, hr, if_false] at h
        split at h
        · rename_i m1 h1
          cases h
          exact ih (Item.capturePlus :: items1) m1 hrest h1
        · split at h
          · rename_i m2 h2
            cases h
            exact ih items1 m2 hrest h2
          · exact absurd h (by simp)

theorem matchItems_cons_capture (items : List Item) (r : GoString) (rs : List GoString)
    (m : List (List GoString) × List GoString) (hr : r ≠ [10])
    (h : matchItems (Item.capturePlus :: items) rs = some m) :
    matchItems (Item.capturePlus :: items) (r :: rs) = some (extendFirst r m.1, m.2) := by
  simp [matchItems, hr, h]

/-- On an input without line feed, the leftmost match of an expression that starts with `(.+)`
starts at the first rune. -/
theorem search_capture (items : List Item) (rs : List GoString)
    (x : List GoString × List (List GoString) × List GoString)
    (hnl : ∀ r ∈ rs, r ≠ [10]) (h : search (Item.capturePlus :: items) rs = some x) :
    ∃ m, matchItems (Item.capturePlus :: items) rs = some m ∧ x = ([], m.1, m.2) := by
  induction rs generalizing x with
  | nil => simp [search, matchItems] at h
  | cons r rest ih =>
    have hr : r ≠ [10] := hnl r (List.mem_cons_self _ _)
    have hrest : ∀ y ∈ rest, y ≠ [10] := fun y hy => hnl y (List.mem_cons_of_mem _ hy)
    cases h1 : matchItems (Item.capturePlus :: items) (r :: rest) with
    | some m =>
      simp only [search, h1, Option.some.injEq] at h
      exact ⟨m, rfl, h.symm⟩
    | none =>
      simp only [search, h1] at h
      cases h2 : search (Item.capturePlus :: items) rest with
      | none => simp [h2] at h
      | some y =>
        obtain ⟨m, hm, _⟩ := ih y hrest h2
        rw [matchItems_cons_capture items r rest m hr hm] at h1
        exact absurd h1 (by simp)

theorem search_of_matchItems (items : List Item) (rs : List GoString)
    (m : List (List GoString) × List GoString) (h : matchItems items rs = some m) :
    search items rs = some ([], m.1, m.2) := by
  cases rs <;> simp [search, h]

theorem replaceLoop_nil (n : Nat) : replaceLoop n [] = [] := by
  cases n <;> simp [replaceLoop, search, matchItems, m1]

/-- The replacement when the expression matches the whole input. -/
theorem replaceLoop_whole (rs : List GoString) (caps : List (List GoString))
    (h : matchItems m1 rs = some (caps, [])) : replaceLoop rs.length rs = expand caps := by
  cases rs with
  | nil => simp [matchItems, m1] at h
  | cons r rest =>
    simp only [List.length_cons, replaceLoop, search_of_matchItems m1 (r :: rest) _ h,
      replaceLoop_nil]
    simp

theorem expand_prefix (caps : List (List GoString)) :
    HasPrefix (expand caps) (str "icos.") = true := by
  have h5 : ∀ X : GoString, HasPrefix (str "icos." ++ X) (str "icos.") = true := by
    intro X
    simp [HasPrefix]
  rcases caps with _ | ⟨g1, _ | ⟨g2, rest⟩⟩
  · rfl
  · simp only [expand, List.append_assoc, h5]
  · simp only [expand, List.append_assoc, h5]

/-- On a key without line feed that the expression matches, the replacement is the expanded
template alone. -/
theorem ReplaceAllString_of_match (k : GoString) (hnl : (10 : UInt8) ∉ k)
    (h : MatchString k = true) :
    ∃ caps, matchItems m1 (runes k) = some (caps, []) ∧ ReplaceAllString k = expand caps := by
  have hr := runes_not_byte k 10 hnl
  unfold MatchString at h
  cases hs : search m1 (runes k) with
  | none => simp [hs] at h
  | some x =>
    obtain ⟨m, hm, _⟩ := search_capture _ (runes k) x hr hs
    have hrest : m.2 = [] :=
      matchItems_rest_nil (runes k)
        [Item.capturePlus, Item.anyCharNotNL, Item.literal 105, Item.literal 99,
          Item.literal 111, Item.literal 115, Item.anyCharNotNL, Item.literal 101,
          Item.literal 117, Item.literal 47] m hr hm
    have hm1 : matchItems m1 (runes k) = some (m.1, []) := by
      rw [← hrest]
      exact hm
    exact ⟨m.1, hm1, replaceLoop_whole (runes k) m.1 hm1⟩

/-- A match of `(.+)` and what follows takes at least one rune for the group and matches what
follows on the rest. -/
theorem matchItems_capture_split (items : List Item) (ys : List GoString)
    (m : List (List GoString) × List GoString)
    (h : matchItems (Item.capturePlus :: items) ys = some m) :
    ∃ g ys1 m1, g ≠ [] ∧ ys = g ++ ys1 ∧ matchItems items ys1 = some m1 := by
  induction ys generalizing m with
  | nil => simp [matchItems] at h
  | cons r rest ih =>
    simp only [matchItems] at h
    split at h
    · exact absurd h (by simp)
    · split at h
      · rename_i m0 h0
        obtain ⟨g, ys1, m1, _, hsplit, hm1⟩ := ih m0 h0
        exact ⟨r :: g, ys1, m1, List.cons_ne_nil _ _, by rw [hsplit]; rfl, hm1⟩
      · split at h
        · rename_i m2 h2
          exact ⟨[r], rest, m2, List.cons_ne_nil _ _, rfl, h2⟩
        · exact absurd h (by simp)

theorem matchItems_literal (b : UInt8) (items : List Item) (ys : List GoString)
    (m : List (List GoString) × List GoString)
    (h : matchItems (Item.literal b :: items) ys = some m) :
    ∃ rest, ys = [b] :: rest ∧ matchItems items rest = some m := by
  cases ys with
  | nil => simp [matchItems] at h
  | cons r rest =>
    simp only [matchItems] at h
    split at h
    · rename_i hr
      exact ⟨rest, by rw [hr], h⟩
    · exact absurd h (by simp)

theorem matchItems_any (items : List Item) (ys : List GoString)
    (m : List (List GoString) × List GoString)
    (h : matchItems (Item.anyCharNotNL :: items) ys = some m) :
    ∃ r rest, ys = r :: rest ∧ matchItems items rest = some m := by
  cases ys with
  | nil => simp [matchItems] at h
  | cons r rest =>
    simp only [matchItems] at h
    split at h
    · exact absurd h (by simp)
    · exact ⟨r, rest, rfl, h⟩

/-- What follows the first group of `m1` needs the rune "/" at its ninth place. -/
theorem matchItems_tail_slash (ys : List GoString) (m : List (List GoString) × List GoString)
    (h : matchItems [Item.anyCharNotNL, Item.literal 105, Item.literal 99, Item.literal 111,
      Item.literal 115, Item.anyCharNotNL, Item.literal 101, Item.literal 117,
      Item.literal 47, Item.capturePlus] ys = some m) :
    ys[8]? = some [47] := by
  obtain ⟨r0, y0, e0, h⟩ := matchItems_any _ _ _ h
  obtain ⟨y1, e1, h⟩ := matchItems_literal _ _ _ _ h
  obtain ⟨y2, e2, h⟩ := matchItems_literal _ _ _ _ h
  obtain ⟨y3, e3, h⟩ := matchItems_literal _ _ _ _ h
  obtain ⟨y4, e4, h⟩ := matchItems_literal _ _ _ _ h
  obtain ⟨r5, y5, e5, h⟩ := matchItems_any _ _ _ h
  obtain ⟨y6, e6, h⟩ := matchItems_literal _ _ _ _ h
  obtain ⟨y7, e7, h⟩ := matchItems_literal _ _ _ _ h
  obtain ⟨y8, e8, h⟩ := matchItems_literal _ _ _ _ h
  subst e0 e1 e2 e3 e4 e5 e6 e7 e8
  simp

/-- The expression `m1` does not match at the "." of ".icos.eu/" when no "/" follows. -/
theorem matchItems_m1_mid (rs : List GoString) (hslash : ∀ r ∈ rs, r ≠ [47]) :
    matchItems m1 ([[46], [105], [99], [111], [115], [46], [101], [117], [47]] ++ rs) =
      none := by
  cases h : matchItems m1 ([[46], [105], [99], [111], [115], [46], [101], [117], [47]] ++ rs)
    with
  | none => rfl
  | some m =>
    exfalso
    obtain ⟨g, ys1, m1, hg, hsplit, hm1⟩ := matchItems_capture_split _ _ m h
    have h8 := matchItems_tail_slash ys1 m1 hm1
    have hglen : 1 ≤ g.length := List.length_pos.mpr hg
    have h9 : ([[46], [105], [99], [111], [115], [46], [101], [117], [47]] ++ rs)[g.length + 8]?
        = some [47] := by
      rw [hsplit, List.getElem?_append_right (Nat.le_add_right _ _)]
      simpa using h8
    rw [List.getElem?_append_right (by simp only [List.length_cons, List.length_nil]; omega)]
      at h9
    exact hslash _ (List.mem_iff_getElem?.mpr ⟨_, h9⟩) rfl

theorem matchItems_capture_last (items : List Item) (r : GoString) (rs : List GoString)
    (m : List (List GoString) × List GoString) (hr : r ≠ [10])
    (h1 : matchItems (Item.capturePlus :: items) rs = none)
    (h2 : matchItems items rs = some m) :
    matchItems (Item.capturePlus :: items) (r :: rs) = some ([r] :: m.1, m.2) := by
  simp [matchItems, hr, h1, h2]

/-- What follows the first group of `m1` matches ".icos.eu/" and what stands behind it. -/
theorem matchItems_tail_mid (rs : List GoString) (hrs : rs ≠ [])
    (hrnl : ∀ r ∈ rs, r ≠ [10]) :
    matchItems [Item.anyCharNotNL, Item.literal 105, Item.literal 99, Item.literal 111,
      Item.literal 115, Item.anyCharNotNL, Item.literal 101, Item.literal 117,
      Item.literal 47, Item.capturePlus]
      ([[46], [105], [99], [111], [115], [46], [101], [117], [47]] ++ rs) =
      some ([rs], []) := by
  simp [matchItems, matchItems_capture_all rs hrs hrnl]

/-- The match of `m1` on the runes of "P.icos.eu/S". -/
theorem matchItems_m1_key (ps rs : List GoString) (hps : ps ≠ []) (hrs : rs ≠ [])
    (hpnl : ∀ r ∈ ps, r ≠ [10]) (hrnl : ∀ r ∈ rs, r ≠ [10]) (hslash : ∀ r ∈ rs, r ≠ [47]) :
    matchItems m1 (ps ++ ([[46], [105], [99], [111], [115], [46], [101], [117], [47]] ++ rs)) =
      some ([ps, rs], []) := by
  induction ps with
  | nil => exact absurd rfl hps
  | cons r rest ih =>
    have hr : r ≠ [10] := hpnl r (List.mem_cons_self _ _)
    by_cases hrest : rest = []
    · subst hrest
      exact matchItems_capture_last _ r _ _ hr (matchItems_m1_mid rs hslash)
        (matchItems_tail_mid rs hrs hrnl)
    · have h1 := ih hrest (fun x hx => hpnl x (List.mem_cons_of_mem _ hx))
      exact matchItems_cons_capture _ r _ _ hr h1

/-- The runes of "P.icos.eu/S": those of P, the nine of ".icos.eu/", those of S. -/
theorem runes_key (P S : GoString) :
    runes (P ++ str ".icos.eu/" ++ S) =
      runes P ++ ([[46], [105], [99], [111], [115], [46], [101], [117], [47]] ++ runes S) := by
  have hlit : str ".icos.eu/" = [46, 105, 99, 111, 115, 46, 101, 117, 47] := rfl
  rw [hlit, List.append_assoc]
  simp only [List.cons_append, List.nil_append]
  rw [runes_append_ascii P _ 46 (by decide)]
  rw [runes_ascii 46 _ (by decide), runes_ascii 105 _ (by decide),
    runes_ascii 99 _ (by decide), runes_ascii 111 _ (by decide),
    runes_ascii 115 _ (by decide), runes_ascii 46 _ (by decide),
    runes_ascii 101 _ (by decide), runes_ascii 117 _ (by decide),
    runes_ascii 47 _ (by decide)]

/-- How `m1` rewrites the key "P.icos.eu/S". -/
theorem ReplaceAllString_key (P S : GoString) (hP : P ≠ []) (hS : S ≠ [])
    (hPnl : (10 : UInt8) ∉ P) (hSnl : (10 : UInt8) ∉ S) (hSslash : (47 : UInt8) ∉ S) :
    MatchString (P ++ str ".icos.eu/" ++ S) = true ∧
      ReplaceAllString (P ++ str ".icos.eu/" ++ S) = str "icos." ++ P ++ str "." ++ S := by
  have hm := matchItems_m1_key (runes P) (runes S) (runes_ne_nil P hP) (runes_ne_nil S hS)
    (runes_not_byte P 10 hPnl) (runes_not_byte S 10 hSnl) (runes_not_byte S 47 hSslash)
  rw [← runes_key] at hm
  constructor
  · unfold MatchString
    rw [search_of_matchItems m1 _ _ hm]
    rfl
  · unfold ReplaceAllString
    rw [replaceLoop_whole _ _ hm]
    simp only [expand, runes_flatten]

/-- A match takes at least as many runes as the expression has items. -/
theorem matchItems_length (rs : List GoString) (items : List Item)
    (m : List (List GoString) × List GoString) (h : matchItems items rs = some m) :
    m.2.length + items.length ≤ rs.length := by
  induction rs generalizing items m with
  | nil =>
    cases items with
    | nil =>
      simp only [matchItems, Option.some.injEq] at h
      subst h
      simp
    | cons it items1 => simp [matchItems] at h
  | cons r rest ih =>
    cases items with
    | nil =>
      simp only [matchItems, Option.some.injEq] at h
      subst h
      simp
    | cons it items1 =>
      cases it with
      | literal b =>
        simp only [matchItems] at h
        split at h
        · have := ih items1 m h
          simp only [List.length_cons]
          omega
        · exact absurd h (by simp)
      | anyCharNotNL =>
        simp only [matchItems] at h
        split at h
        · exact absurd h (by simp)
        · have := ih items1 m h
          simp only [List.length_cons]
          omega
      | capturePlus =>
        simp only [matchItems] at h
        split at h
        · exact absurd h (by simp)
        · split at h
          · rename_i m0 h0
            cases h
            have := ih (Item.capturePlus :: items1) m0 h0
            simp only [List.length_cons] at this ⊢
            omega
          · split at h
            · rename_i m2 h2
              cases h
              have := ih items1 m2 h2
              simp only [List.length_cons]
              omega
            · exact absurd h (by simp)

theorem search_length (items : List Item) (rs : List GoString)
    (x : List GoString × List (List GoString) × List GoString)
    (h : search items rs = some x) : x.2.2.length + items.length ≤ rs.length := by
  induction rs generalizing x with
  | nil =>
    simp only [search] at h
    cases hm : matchItems items [] with
    | none => simp [hm] at h
    | some m =>
      simp only [hm, Option.map_some', Option.some.injEq] at h
      subst h
      exact matchItems_length [] items m hm
  | cons r rest ih =>
    simp only [search] at h
    split at h
    · rename_i m hm
      cases h
      exact matchItems_length (r :: rest) items m hm
    · cases hs : search items rest with
      | none => simp [hs] at h
      | some y =>
        simp only [hs, Option.map_some', Option.some.injEq] at h
        subst h
        have := ih y hs
        simp only [List.length_cons]
        omega

/-- The number of runes is fuel enough for the loop of `ReplaceAllString`: more fuel gives the
same result. -/
theorem replaceLoop_fuel (n k : Nat) (rs : List GoString) (hn : rs.length ≤ n)
    (hk : rs.length ≤ k) : replaceLoop n rs = replaceLoop k rs := by
  induction n generalizing k rs with
  | zero =>
    have hrs : rs = [] := List.length_eq_zero.mp (Nat.le_zero.mp hn)
    subst hrs
    rw [replaceLoop_nil, replaceLoop_nil]
  | succ n ih =>
    cases k with
    | zero =>
      have hrs : rs = [] := List.length_eq_zero.mp (Nat.le_zero.mp hk)
      subst hrs
      rw [replaceLoop_nil, replaceLoop_nil]
    | succ k =>
      simp only [replaceLoop]
      cases hs : search m1 rs with
      | none => rfl
      | some x =>
        obtain ⟨before, caps, rest⟩ := x
        have hlen := search_length m1 rs _ hs
        have h11 : m1.length = 11 := rfl
        simp only [h11] at hlen
        simp only
        rw [ih k rest (by omega) (by omega)]

/-! ## The annotations map -/

theorem mem_mapSet (m : GoMap) (k v : GoString) (e : GoString × GoString)
    (h : e ∈ mapSet m k v) : e ∈ m ∨ e = (k, v) := by
  unfold mapSet at h
  split at h
  · obtain ⟨e0, he0, hf⟩ := List.mem_map.mp h
    by_cases hk : e0.1 = k
    · rw [if_pos hk] at hf
      exact Or.inr hf.symm
    · rw [if_neg hk] at hf
      exact Or.inl (hf ▸ he0)
  · rcases List.mem_append.mp h with h1 | h1
    · exact Or.inl h1
    · exact Or.inr (List.mem_singleton.mp h1)

theorem mem_mapSet_self (m : GoMap) (k v : GoString) : (k, v) ∈ mapSet m k v := by
  unfold mapSet
  split
  · rename_i hk
    obtain ⟨e0, he0, hfst⟩ := List.mem_map.mp hk
    exact List.mem_map.mpr ⟨e0, he0, by rw [if_pos hfst]⟩
  · exact List.mem_append_right _ (List.mem_singleton.mpr rfl)

theorem keys_mapSet (m : GoMap) (k v : GoString) :
    (mapSet m k v).map Prod.fst =
      if k ∈ m.map Prod.fst then m.map Prod.fst else m.map Prod.fst ++ [k] := by
  unfold mapSet
  split
  · rw [List.map_map]
    apply List.map_congr_left
    intro e _
    by_cases hk : e.1 = k
    · simp [hk]
    · simp [hk]
  · simp

theorem keys_mapSet_mono (m : GoMap) (k v k1 : GoString) (h : k1 ∈ m.map Prod.fst) :
    k1 ∈ (mapSet m k v).map Prod.fst := by
  rw [keys_mapSet]
  split
  · exact h
  · exact List.mem_append_left _ h

theorem keys_mapSet_nodup (m : GoMap) (k v : GoString) (h : (m.map Prod.fst).Nodup) :
    ((mapSet m k v).map Prod.fst).Nodup := by
  rw [keys_mapSet]
  split
  · exact h
  · rename_i hk
    exact List.Nodup.append h (List.nodup_singleton k)
      (by
        intro x hx hx1
        rw [List.mem_singleton] at hx1
        exact hk (hx1 ▸ hx))

theorem rangeLabels_cons (kv : GoString × GoString) (rest : GoMap) (acc : GoMap) :
    rangeLabels (kv :: rest) acc =
      rangeLabels rest
        (if MatchString kv.1 = true then mapSet acc (ReplaceAllString kv.1) kv.2 else acc) := by
  simp only [rangeLabels, List.foldl_cons]

/-- Every entry of the map that the loop builds comes from a label whose key matches. -/
theorem rangeLabels_mem (labels acc : GoMap) (e : GoString × GoString)
    (h : e ∈ rangeLabels labels acc) :
    e ∈ acc ∨ ∃ k, (k, e.2) ∈ labels ∧ MatchString k = true ∧ e.1 = ReplaceAllString k := by
  induction labels generalizing acc with
  | nil => exact Or.inl h
  | cons kv rest ih =>
    rw [rangeLabels_cons] at h
    rcases ih _ h with h1 | ⟨k, hk, hm, he⟩
    · by_cases hmatch : MatchString kv.1 = true
      · rw [if_pos hmatch] at h1
        rcases mem_mapSet _ _ _ _ h1 with h2 | h2
        · exact Or.inl h2
        · refine Or.inr ⟨kv.1, ?_, hmatch, by rw [h2]⟩
          rw [h2]
          exact List.mem_cons_self _ _
      · rw [if_neg hmatch] at h1
        exact Or.inl h1
    · exact Or.inr ⟨k, List.mem_cons_of_mem _ hk, hm, he⟩

theorem rangeLabels_keys_mono (labels acc : GoMap) (k1 : GoString)
    (h : k1 ∈ acc.map Prod.fst) : k1 ∈ (rangeLabels labels acc).map Prod.fst := by
  induction labels generalizing acc with
  | nil => exact h
  | cons kv rest ih =>
    rw [rangeLabels_cons]
    apply ih
    split
    · exact keys_mapSet_mono _ _ _ _ h
    · exact h

/-- Every label whose key matches leaves an entry under the rewritten key. -/
theorem rangeLabels_key_present (labels acc : GoMap) (k v : GoString) (h : (k, v) ∈ labels)
    (hm : MatchString k = true) :
    ReplaceAllString k ∈ (rangeLabels labels acc).map Prod.fst := by
  induction labels generalizing acc with
  | nil => simp at h
  | cons kv rest ih =>
    rw [rangeLabels_cons]
    rcases List.mem_cons.mp h with h1 | h1
    · subst h1
      apply rangeLabels_keys_mono
      change ReplaceAllString k ∈
        (if MatchString k = true then mapSet acc (ReplaceAllString k) v else acc).map Prod.fst
      rw [if_pos hm]
      exact List.mem_map.mpr ⟨_, mem_mapSet_self _ _ _, rfl⟩
    · exact ih _ h1

theorem rangeLabels_nodup (labels acc : GoMap) (h : (acc.map Prod.fst).Nodup) :
    ((rangeLabels labels acc).map Prod.fst).Nodup := by
  induction labels generalizing acc with
  | nil => exact h
  | cons kv rest ih =>
    rw [rangeLabels_cons]
    apply ih
    split
    · exact keys_mapSet_nodup _ _ _ h
    · exact h

theorem foldl_workloads {α : Type} (f : α → WorkloadInfo) (l : List α)
    (res : List WorkloadInfo) :
    l.foldl (fun res x => res ++ [f x]) res = res ++ l.map f := by
  induction l generalizing res with
  | nil => simp
  | cons x xs ih => simp [ih]

theorem rangeContainers_eq (containers : List ContainerSummary) (res res1 : List WorkloadInfo)
    (h : DockerProvider.rangeContainers containers res = some res1) :
    res1.map (fun w => w.Annotations) =
      res.map (fun w => w.Annotations) ++
        containers.map (fun ctr => rangeLabels ctr.Labels []) := by
  induction containers generalizing res with
  | nil =>
    simp only [DockerProvider.rangeContainers, Option.some.injEq] at h
    subst h
    simp
  | cons ctr rest ih =>
    simp only [DockerProvider.rangeContainers] at h
    split at h
    · exact absurd h (by simp)
    · rw [ih _ h]
      simp

theorem rangeContainers_some (containers : List ContainerSummary) (res : List WorkloadInfo)
    (h : ∀ ctr ∈ containers, ctr.Names ≠ []) :
    ∃ res1, DockerProvider.rangeContainers containers res = some res1 := by
  induction containers generalizing res with
  | nil => exact ⟨res, rfl⟩
  | cons ctr rest ih =>
    have hctr := h ctr (List.mem_cons_self _ _)
    cases hn : ctr.Names with
    | nil => exact absurd hn hctr
    | cons name others =>
      simp only [DockerProvider.rangeContainers, hn]
      exact ih _ (fun x hx => h x (List.mem_cons_of_mem _ hx))

theorem rangeLabels_append (l1 l2 acc : GoMap) :
    rangeLabels (l1 ++ l2) acc = rangeLabels l2 (rangeLabels l1 acc) := by
  simp only [rangeLabels, List.foldl_append]

theorem mem_mapSet_other (m : GoMap) (k v : GoString) (e : GoString × GoString)
    (he : e ∈ m) (hk : e.1 ≠ k) : e ∈ mapSet m k v := by
  unfold mapSet
  split
  · exact List.mem_map.mpr ⟨e, he, by rw [if_neg hk]⟩
  · exact List.mem_append_left _ he

/-- An entry stays as it is while no later label is rewritten to its key. -/
theorem rangeLabels_keep (labels acc : GoMap) (e : GoString × GoString) (he : e ∈ acc)
    (h : ∀ kv ∈ labels, MatchString kv.1 = true → ReplaceAllString kv.1 ≠ e.1) :
    e ∈ rangeLabels labels acc := by
  induction labels generalizing acc with
  | nil => exact he
  | cons kv rest ih =>
    rw [rangeLabels_cons]
    apply ih _ _ (fun x hx => h x (List.mem_cons_of_mem _ hx))
    by_cases hm : MatchString kv.1 = true
    · rw [if_pos hm]
      exact mem_mapSet_other _ _ _ _ he
        (fun heq => h kv (List.mem_cons_self _ _) hm heq.symm)
    · rw [if_neg hm]
      exact he

/-! ## Claims, continued -/

/-- Claim C16, counterexample. The keys "a.icos.eu/b" with value "1" and "a-icos-eu/b" with
value "2" hold no line feed, and "a" and "b" are not empty and hold no "/". The dots of `m1`
match any character, so both keys are rewritten to "icos.a.b"; when the range yields them in
this order, the map built for the pod has the single entry "icos.a.b" = "2": the value "1" of
the key "a.icos.eu/b" is not the one under "icos.a.b". -/
theorem C16_counterexample_colliding_keys :
    ((10 : UInt8) ∉ str "a" ++ str ".icos.eu/" ++ str "b" ∧ (10 : UInt8) ∉ str "a-icos-eu/b" ∧
      str "a" ≠ [] ∧ str "b" ≠ [] ∧ (47 : UInt8) ∉ str "a" ∧ (47 : UInt8) ∉ str "b") ∧
    ReplaceAllString (str "a" ++ str ".icos.eu/" ++ str "b") = str "icos.a.b" ∧
    ReplaceAllString (str "a-icos-eu/b") = str "icos.a.b" ∧
    (KubernetesProvider.ProvideWorkloadInfo ⟨true, str "uid"⟩
        [⟨⟨str "pod", [],
            [(str "a" ++ str ".icos.eu/" ++ str "b", str "1"),
              (str "a-icos-eu/b", str "2")]⟩, ⟨[], []⟩⟩]
        ⟨[], [], [], none⟩).RunningWorkloads.map (fun w => w.Annotations) =
      [[(str "icos.a.b", str "2")]] ∧
    (str "icos.a.b", str "1") ∉
      rangeLabels [(str "a" ++ str ".icos.eu/" ++ str "b", str "1"),
        (str "a-icos-eu/b", str "2")] [] := by
  refine ⟨by decide, by decide, by decide, by decide, by decide⟩

/-- Claim C16, amended. The `Annotations` of a workload are what the loop over the annotations
of the pod (`KubernetesProvider.ProvideWorkloadInfo`, which always returns) or the labels of the
container (`DockerProvider.ProvideWorkloadInfo`, which returns when the container list is
answered and every container has a name) builds. That map has one entry per key, and an entry
only for input keys that `m1` matches, under the rewritten key and with the value of such an
input. When no input key holds a line feed, every key of the map begins with "icos.", so none
is "name", "cluster_id" or "host_id". An input key "P.icos.eu/S" with P and S not empty, without
line feed and without "/", is matched and rewritten to "icos.P.S": its turn of the loop stores
its value, as it is, under that key, and the map built has an entry under that key. That entry
holds the value of the key unchanged when no input key that the range yields later is rewritten
to "icos.P.S", and also when every input key rewritten to "icos.P.S" carries the same value;
when several input keys with different values are rewritten to "icos.P.S", the entry holds the
value of the one the range yields last. -/
theorem C16_icos_annotations (labels : GoMap) :
    (∀ (kp : KubernetesProvider) (items : List Pod) (c : WorkloadInfoCollector),
      (kp.ProvideWorkloadInfo items c).RunningWorkloads.map (fun w => w.Annotations) =
        items.map (fun p => rangeLabels p.ObjectMeta.Annotations [])) ∧
    (∀ (kd : DockerProvider) (containers : List ContainerSummary) (c : WorkloadInfoCollector),
      (∀ ctr ∈ containers, ctr.Names ≠ []) →
      ∃ c1, kd.ProvideWorkloadInfo (Except.ok containers) c = some c1 ∧
        c1.RunningWorkloads.map (fun w => w.Annotations) =
          containers.map (fun ctr => rangeLabels ctr.Labels [])) ∧
    ((rangeLabels labels []).map Prod.fst).Nodup ∧
    (∀ k1 v1, (k1, v1) ∈ rangeLabels labels [] →
      ∃ k, (k, v1) ∈ labels ∧ MatchString k = true ∧ k1 = ReplaceAllString k) ∧
    ((∀ kv ∈ labels, (10 : UInt8) ∉ kv.1) →
      ∀ k1 ∈ (rangeLabels labels []).map Prod.fst,
        HasPrefix k1 (str "icos.") = true ∧
        k1 ≠ str "name" ∧ k1 ≠ str "cluster_id" ∧ k1 ≠ str "host_id") ∧
    (∀ P S v : GoString, P ≠ [] → S ≠ [] → (10 : UInt8) ∉ P → (10 : UInt8) ∉ S →
      (47 : UInt8) ∉ P → (47 : UInt8) ∉ S →
      MatchString (P ++ str ".icos.eu/" ++ S) = true ∧
      ReplaceAllString (P ++ str ".icos.eu/" ++ S) = str "icos." ++ P ++ str "." ++ S ∧
      (∀ rest acc : GoMap,
        rangeLabels ((P ++ str ".icos.eu/" ++ S, v) :: rest) acc =
          rangeLabels rest (mapSet acc (str "icos." ++ P ++ str "." ++ S) v) ∧
        (str "icos." ++ P ++ str "." ++ S, v) ∈
          mapSet acc (str "icos." ++ P ++ str "." ++ S) v) ∧
      ((P ++ str ".icos.eu/" ++ S, v) ∈ labels →
        str "icos." ++ P ++ str "." ++ S ∈ (rangeLabels labels []).map Prod.fst ∧
        ((∀ kv ∈ labels, MatchString kv.1 = true →
            ReplaceAllString kv.1 = str "icos." ++ P ++ str "." ++ S → kv.2 = v) →
          (str "icos." ++ P ++ str "." ++ S, v) ∈ rangeLabels labels [])) ∧
      (∀ earlier later : GoMap, labels = earlier ++ (P ++ str ".icos.eu/" ++ S, v) :: later →
        (∀ kv ∈ later, MatchString kv.1 = true →
          ReplaceAllString kv.1 ≠ str "icos." ++ P ++ str "." ++ S) →
        (str "icos." ++ P ++ str "." ++ S, v) ∈ rangeLabels labels [])) := by
  refine ⟨?_, ?_, ?_, ?_, ?_, ?_⟩
  · intro kp items c
    simp only [KubernetesProvider.ProvideWorkloadInfo]
    rw [foldl_workloads]
    simp
  · intro kd containers c hnames
    obtain ⟨res, hres⟩ := rangeContainers_some containers [] hnames
    refine ⟨{ c with RunningWorkloads := res, ClusterId := kd.Id }, ?_, ?_⟩
    · simp only [DockerProvider.ProvideWorkloadInfo, hres]
    · simpa using rangeContainers_eq containers [] res hres
  · exact rangeLabels_nodup labels [] List.nodup_nil
  · intro k1 v1 h
    rcases rangeLabels_mem labels [] _ h with h1 | h1
    · simp at h1
    · exact h1
  · intro hnl k1 hk1
    obtain ⟨e, he, hfst⟩ := List.mem_map.mp hk1
    rcases rangeLabels_mem labels [] e he with h1 | ⟨k, hk, hm, hrew⟩
    · simp at h1
    · obtain ⟨caps, _, hrep⟩ := ReplaceAllString_of_match k (hnl _ hk) hm
      have hpre : HasPrefix k1 (str "icos.") = true := by
        rw [← hfst, hrew, hrep]
        exact expand_prefix caps
      refine ⟨hpre, ?_, ?_, ?_⟩
      · intro h
        rw [h] at hpre
        exact absurd hpre (by decide)
      · intro h
        rw [h] at hpre
        exact absurd hpre (by decide)
      · intro h
        rw [h] at hpre
        exact absurd hpre (by decide)
  · intro P S v hP hS hPnl hSnl _ hSslash
    obtain ⟨hmatch, hrep⟩ := ReplaceAllString_key P S hP hS hPnl hSnl hSslash
    refine ⟨hmatch, hrep, ?_, ?_, ?_⟩
    · intro rest acc
      refine ⟨?_, mem_mapSet_self _ _ _⟩
      rw [rangeLabels_cons]
      simp only [hmatch, if_true, hrep]
    · intro hmem
      have hkey := rangeLabels_key_present labels [] _ v hmem hmatch
      rw [hrep] at hkey
      refine ⟨hkey, ?_⟩
      intro hsame
      obtain ⟨e, he, hfst⟩ := List.mem_map.mp hkey
      rcases rangeLabels_mem labels [] e he with h1 | ⟨k, hk, hm, hrew⟩
      · simp at h1
      · have hv : e.2 = v := hsame (k, e.2) hk hm (by rw [← hrew, hfst])
        have hev : e = (str "icos." ++ P ++ str "." ++ S, v) := by
          rw [← hfst, ← hv]
        rw [← hev]
        exact he
    · intro earlier later hsplit hlater
      rw [hsplit, rangeLabels_append, rangeLabels_cons]
      simp only [hmatch, if_true, hrep]
      exact rangeLabels_keep later _ _ (mem_mapSet_self _ _ _) hlater

/-- Witness of C16: a container "/web" with the labels app.icos.eu/name = "x" and
other = "y". -/
theorem C16_icos_annotations_witness :
    (∃ c1, DockerProvider.ProvideWorkloadInfo ⟨str "node"⟩
        (Except.ok [⟨[str "/web"],
          [(str "app" ++ str ".icos.eu/" ++ str "name", str "x"), (str "other", str "y")]⟩])
        ⟨[], [], [], none⟩ = some c1 ∧
      c1.RunningWorkloads.map (fun w => w.Annotations) =
        [[(str "icos.app.name", str "x")]]) ∧
    (str "icos." ++ str "app" ++ str "." ++ str "name", str "x") ∈
      rangeLabels [(str "app" ++ str ".icos.eu/" ++ str "name", str "x"),
        (str "other", str "y")] [] ∧
    ∀ k1 ∈ (rangeLabels [(str "app" ++ str ".icos.eu/" ++ str "name", str "x"),
        (str "other", str "y")] []).map Prod.fst,
      HasPrefix k1 (str "icos.") = true ∧
      k1 ≠ str "name" ∧ k1 ≠ str "cluster_id" ∧ k1 ≠ str "host_id" := by
  refine ⟨?_, ?_, ?_⟩
  · obtain ⟨c1, h1, h2⟩ :=
      (C16_icos_annotations []).2.1 ⟨str "node"⟩
        [⟨[str "/web"],
          [(str "app" ++ str ".icos.eu/" ++ str "name", str "x"), (str "other", str "y")]⟩]
        ⟨[], [], [], none⟩ (by decide)
    refine ⟨c1, h1, ?_⟩
    rw [h2]
    decide
  · exact (((C16_icos_annotations [(str "app" ++ str ".icos.eu/" ++ str "name", str "x"),
        (str "other", str "y")]).2.2.2.2.2 (str "app") (str "name") (str "x")
      (by decide) (by decide) (by decide) (by decide) (by decide) (by decide)).2.2.2.1
      (List.mem_cons_self _ _)).2 (by decide)
  · exact (C16_icos_annotations [(str "app" ++ str ".icos.eu/" ++ str "name", str "x"),
        (str "other", str "y")]).2.2.2.2.1 (by decide)

end Telemetruum
